import Mathlib

/-!
Shallow embedding of the bybop client core (Bybop_NetworkAL.py,
Bybop_Network.py, Bybop_Commands.py, Bybop_Device.py) and proofs about it.

Conventions used throughout:
* machine bytes are `Nat` values; `% 256`-style bounds are explicit where
  the Python `struct` module would enforce them;
* Python dictionaries keyed by buffer ids become total functions with the
  default value that the source would lazily insert (`_get_seq` inserts 0;
  `__init__` sets 255 for receive buffers) together with explicit
  declared-buffer lists for the membership tests the source performs;
* code that can raise returns an `Option`/`Except`, or carries an
  `Option String` error component next to the effects performed before the
  raise, mirroring Python's sequential exception semantics;
* socket writes are recorded as values (the frame handed to `sendto`),
  since their network effect is outside the program.
-/

/-! ## Little-endian byte encoding helpers (the `struct` module, '<' mode) -/

/-- `w` little-endian bytes of `n` (the encoding used by `struct.pack` with
the '<' prefix for the fixed-width integer format characters). -/
def natLE : Nat → Nat → List Nat
  | 0, _ => []
  | w + 1, n => n % 256 :: natLE w (n / 256)

/-- Read back a little-endian byte list as a natural number. -/
def leNat : List Nat → Nat
  | [] => 0
  | b :: t => b + 256 * leNat t

/-- Python's `str.split('.')` (single-character separator, no maxsplit),
written over the character list so that it evaluates by kernel reduction:
`acc` holds the current component reversed. -/
def splitDotsAux : List Char → List Char → List String
  | [], acc => [String.mk acc.reverse]
  | c :: t, acc =>
    if c = '.' then String.mk acc.reverse :: splitDotsAux t []
    else splitDotsAux t (c :: acc)

/-- `name.split('.')` from Python. -/
def splitDots (s : String) : List String :=
  splitDotsAux s.data []

/-! ## Bybop_NetworkAL : datagram transport -/

namespace NetworkAL

/-- `DataType.ACK` from Bybop_NetworkAL.py. -/
def ACK : Nat := 1

/-- `DataType.DATA` from Bybop_NetworkAL.py. -/
def DATA : Nat := 2

/-- `DataType.DATA_LOW_LATENCY` from Bybop_NetworkAL.py. -/
def DATA_LOW_LATENCY : Nat := 3

/-- `DataType.DATA_WITH_ACK` from Bybop_NetworkAL.py. -/
def DATA_WITH_ACK : Nat := 4

/-- A transport-level frame as handed to / received from the listener:
`(type, buffer, seq, payload)`.  Buffer ids are `Int` because the Network
layer computes `buf - 128`, which may be negative in Python. -/
structure Frame where
  type : Nat
  buf : Int
  seq : Nat
  payload : List Nat
deriving DecidableEq

/-- `NetworkAL.send_data`: `struct.pack('<BBBI', type, buf, seq, len(data)+7)`
followed by the payload.  `none` models the `struct.error` raised when a
field is out of range for its format character. -/
def alSendData (type : Nat) (buf : Int) (seq : Nat) (data : List Nat) :
    Option (List Nat) :=
  if type < 256 ∧ 0 ≤ buf ∧ buf < 256 ∧ seq < 256 ∧ data.length + 7 < 2 ^ 32 then
    some ([type, buf.toNat, seq] ++ natLE 4 (data.length + 7) ++ data)
  else
    none

/-- One iteration step plus recursion of `NetworkAL._read_loop`'s inner
`while the_data:` loop.  The fuel argument bounds the number of frames
consumed; `none` models the two ways the Python loop misbehaves on
malformed input (a `struct.error` on a short header, or non-termination
when `size = 0`, which leaves `the_data` unchanged forever). -/
def readFrames : Nat → List Nat → Option (List Frame)
  | _, [] => some []
  | 0, _ :: _ => none
  | fuel + 1, t :: b :: s :: l0 :: l1 :: l2 :: l3 :: rest =>
    let size := leNat [l0, l1, l2, l3]
    let payload := rest.take (size - 7)
    (readFrames fuel ((t :: b :: s :: l0 :: l1 :: l2 :: l3 :: rest).drop size)).map
      (fun fs => ⟨t, Int.ofNat b, s, payload⟩ :: fs)
  | _ + 1, _ :: _ => none

end NetworkAL

/-! ## Bybop_Network : reliable channel -/

namespace Network

/-- `NetworkStatus` from Bybop_Network.py. -/
inductive NetStatus where
  | OK
  | ERROR
  | TIMEOUT
deriving DecidableEq

/-- The mutable state of a `Network` instance.  The Python dicts
`_send_seq`, `_recv_seq`, `_ack_seq` are total functions here, with the
default each dict would lazily hold (0, 255, 0); `_ack_events` maps each
buffer to whether its `threading.Event` is set.  `_recv_seq`'s key set is
exactly `recvBuffers` (set in `__init__`, never extended), so the source's
`buf in self._recv_seq` test is `buf ∈ recvBuffers` here. -/
structure NetState where
  sendBuffers : List Int
  recvBuffers : List Int
  sendSeq : Int → Nat
  recvSeq : Int → Nat
  ackSeq : Int → Nat
  ackEvent : Int → Bool

/-- Pointwise update of a buffer-indexed map. -/
def upd {β : Type} (f : Int → β) (k : Int) (v : β) : Int → β :=
  fun x => if x = k then v else f x

/-- `Network.__init__`: every declared send buffer starts with seq 0, a
cleared ack event and ack seq 0; every declared receive buffer starts with
last-accepted seq 255. -/
def newNetwork (sendBufs recvBufs : List Int) : NetState :=
  { sendBuffers := sendBufs
    recvBuffers := recvBufs
    sendSeq := fun _ => 0
    recvSeq := fun _ => 255
    ackSeq := fun _ => 0
    ackEvent := fun _ => false }

/-- `Network._get_seq`: return the current counter (lazily created at 0)
and store `(ret + 1) % 256`. -/
def getSeq (st : NetState) (buf : Int) : Nat × NetState :=
  let ret := st.sendSeq buf
  (ret, { st with sendSeq := upd st.sendSeq buf ((ret + 1) % 256) })

/-- `Network._should_accept`: `diff = seq - prev` on plain integers;
accept iff `diff >= 0 or diff <= -10`; on accept store `seq`. -/
def shouldAccept (st : NetState) (buf : Int) (seq : Nat) : Bool × NetState :=
  if buf ∈ st.recvBuffers then
    let prev := st.recvSeq buf
    let diff : Int := (seq : Int) - (prev : Int)
    let ok : Bool := decide (0 ≤ diff) || decide (diff ≤ -10)
    if ok then
      (true, { st with recvSeq := upd st.recvSeq buf seq })
    else
      (false, st)
  else
    (false, st)

/-- `Network._process_data`: deliver `(buf, recv_data)` to the listener
iff `_should_accept` says so.  The second component lists the
`listener.data_received` calls made. -/
def processData (st : NetState) (buf : Int) (seq : Nat) (data : List Nat) :
    NetState × List (Int × List Nat) :=
  let r := shouldAccept st buf seq
  if r.1 then (r.2, [(buf, data)]) else (r.2, [])

/-- `Network._send_pong`: send the ping payload back on buffer 1 with a
fresh seq from buffer 1's counter.  The `Option String` is the
`struct.error` that `NetworkAL.send_data` would raise (uncaught) if the
payload is too long for the `u32` length field. -/
def sendPong (st : NetState) (data : List Nat) :
    NetState × List NetworkAL.Frame × Option String :=
  let g := getSeq st 1
  match NetworkAL.alSendData NetworkAL.DATA 1 g.1 data with
  | some _ => (g.2, [⟨NetworkAL.DATA, 1, g.1, data⟩], none)
  | none => (g.2, [], some "struct.error in NetworkAL.send_data")

/-- `Network._send_ack`: `struct.pack('<B', seq)` as payload, on buffer
`buf + 128`, with a fresh seq from the ack buffer's own counter. -/
def sendAck (st : NetState) (buf : Int) (seq : Nat) :
    NetState × List NetworkAL.Frame × Option String :=
  if seq < 256 then
    let abuf := buf + 128
    let g := getSeq st abuf
    match NetworkAL.alSendData NetworkAL.ACK abuf g.1 [seq] with
    | some _ => (g.2, [⟨NetworkAL.ACK, abuf, g.1, [seq]⟩], none)
    | none => (g.2, [], some "struct.error in NetworkAL.send_data")
  else
    (st, [], some "struct.error in struct.pack B")

/-- The type-dispatch part of `Network.data_received` (everything after
the ping handling).  Returns the new state, the transport sends IT
performs, the `(buf, data)` deliveries to the application listener, and
the uncaught exception if one is raised (`struct.unpack('<B', recv_data)`
on an ACK payload that is not exactly one byte, or a `struct.error`
inside `_send_ack`). -/
def dataReceivedCore (st : NetState) (type : Nat) (buf : Int) (seq : Nat)
    (data : List Nat) :
    NetState × List NetworkAL.Frame × List (Int × List Nat) × Option String :=
  if type = NetworkAL.ACK then
    let ackbuf := buf - 128
    if ackbuf ∈ st.sendBuffers then
      match data with
      | [b] =>
        if b = st.ackSeq ackbuf then
          ({ st with ackEvent := upd st.ackEvent ackbuf true }, [], [], none)
        else
          (st, [], [], none)
      | _ => (st, [], [], some "struct.error in struct.unpack B")
    else
      (st, [], [], none)
  else if type = NetworkAL.DATA then
    let r := processData st buf seq data
    (r.1, [], r.2, none)
  else if type = NetworkAL.DATA_LOW_LATENCY then
    let r := processData st buf seq data
    (r.1, [], r.2, none)
  else if type = NetworkAL.DATA_WITH_ACK then
    let r := processData st buf seq data
    let a := sendAck r.1 buf seq
    (a.1, a.2.1, r.2, a.2.2)
  else
    (st, [], [], none)

/-- `Network.data_received`: the NetworkAL listener.  The unconditional
ping reply on buffer 0 runs first (its `struct.error`, if any, escapes
before the type dispatch); the sends are the pong (if any) followed by
the dispatch's own sends.  Effects performed before a raise are kept, as
in Python. -/
def dataReceived (st : NetState) (type : Nat) (buf : Int) (seq : Nat)
    (data : List Nat) :
    NetState × List NetworkAL.Frame × List (Int × List Nat) × Option String :=
  let pong := if buf = 0 then sendPong st data else (st, [], none)
  match pong with
  | (st1, psends, some e) => (st1, psends, [], some e)
  | (st1, psends, none) =>
    let r := dataReceivedCore st1 type buf seq data
    (r.1, psends ++ r.2.1, r.2.2.1, r.2.2.2)

/-- The `while tries > 0 and status == TIMEOUT` loop of
`Network.send_data`.  `oracle i = (sendOk, ackSet)` gives, for the i-th
transport send, whether the socket write succeeded and whether the ack
event was signalled within the wait timeout.  Returns the final status and
the total number of transport sends performed (`sent` counts those already
made).  The status entering the loop is always `TIMEOUT`. -/
def sendLoop (needack : Bool) (oracle : Nat → Bool × Bool) :
    Nat → Nat → NetStatus × Nat
  | 0, sent => (NetStatus.TIMEOUT, sent)
  | tries + 1, sent =>
    let o := oracle sent
    let status := if o.1 then NetStatus.OK else NetStatus.ERROR
    let status :=
      if needack ∧ status = NetStatus.OK then
        if o.2 then NetStatus.OK else NetStatus.TIMEOUT
      else status
    if status = NetStatus.TIMEOUT then
      sendLoop needack oracle tries (sent + 1)
    else
      (status, sent + 1)

/-- `Network.send_data`: reject undeclared buffers, allocate a seq, record
the pending ack for acknowledged data, run the retry loop.  Returns the
status, the number of transport sends performed and the state after. -/
def sendData (st : NetState) (buf : Int) (type : Nat) (tries : Nat)
    (oracle : Nat → Bool × Bool) : NetStatus × Nat × NetState :=
  if buf ∈ st.sendBuffers then
    let g := getSeq st buf
    let needack := type = NetworkAL.DATA_WITH_ACK
    let st2 :=
      if needack then
        { g.2 with ackEvent := upd g.2.ackEvent buf false
                   ackSeq := upd g.2.ackSeq buf g.1 }
      else g.2
    let r := sendLoop needack oracle tries 0
    (r.1, r.2, st2)
  else
    (NetStatus.ERROR, 0, st)

end Network

/-! ## Bybop_Commands : command codec

The schema catalogue (`_ctx`) is parsed at import time from the external
`arsdk-xml` descriptors by the external `arsdkparser` package; here it is
explicit data (`ArCtx`).  The paired by-name / by-id Python dicts of that
catalogue become lists with two `find?` lookups; they agree with the dicts
whenever the relevant names / ids are duplicate-free, which the
well-formedness predicate below captures.  Argument types are stored
already resolved the way `_format_string_for_cmd` resolves them: a
bitfield contributes its underlying integer kind and an enum contributes
`i32` ('i'); multisettings, which that function rejects with an exception,
are not represented.  Float and double arguments are represented by their
IEEE-754 bit patterns (the 4 or 8 wire bytes), which is exactly what the
serialiser reads and writes. -/

namespace Commands

/-- The wire scalar kinds of `_struct_fmt_for_type` (the 'z' format is
`string`; `enum` resolves to `i32` before reaching the packer). -/
inductive ArgType where
  | u8
  | i8
  | u16
  | i16
  | u32
  | i32
  | u64
  | i64
  | float
  | double
  | string
deriving DecidableEq

/-- A runtime argument value.  Integer kinds carry the Python int; float
kinds carry the IEEE bit pattern; `str` carries the raw bytes (without the
terminating NUL, which the wire format adds). -/
inductive Val where
  | u8 (n : Nat)
  | i8 (i : Int)
  | u16 (n : Nat)
  | i16 (i : Int)
  | u32 (n : Nat)
  | i32 (i : Int)
  | u64 (n : Nat)
  | i64 (i : Int)
  | f32 (bits : Nat)
  | f64 (bits : Nat)
  | str (s : List Nat)
deriving DecidableEq

/-- Pack one argument as `_struct_pack` does for its format character:
fixed-width little-endian for the integer formats (with the range check
`struct.pack` performs; `none` is the `struct.error` / `TypeError` that
`pack_command` turns into a `CommandError`), and `bytes ++ [0]` for 'z'
(`'%ds' % (len+1)` pads with exactly one NUL). -/
def packVal : ArgType → Val → Option (List Nat)
  | .u8, .u8 n => if n < 2 ^ 8 then some (natLE 1 n) else none
  | .i8, .i8 i =>
    if -(2 ^ 7) ≤ i ∧ i < 2 ^ 7 then some (natLE 1 (i % (2 ^ 8)).toNat)
    else none
  | .u16, .u16 n => if n < 2 ^ 16 then some (natLE 2 n) else none
  | .i16, .i16 i =>
    if -(2 ^ 15) ≤ i ∧ i < 2 ^ 15 then some (natLE 2 (i % (2 ^ 16)).toNat)
    else none
  | .u32, .u32 n => if n < 2 ^ 32 then some (natLE 4 n) else none
  | .i32, .i32 i =>
    if -(2 ^ 31) ≤ i ∧ i < 2 ^ 31 then some (natLE 4 (i % (2 ^ 32)).toNat)
    else none
  | .u64, .u64 n => if n < 2 ^ 64 then some (natLE 8 n) else none
  | .i64, .i64 i =>
    if -(2 ^ 63) ≤ i ∧ i < 2 ^ 63 then some (natLE 8 (i % (2 ^ 64)).toNat)
    else none
  | .float, .f32 b => if b < 2 ^ 32 then some (natLE 4 b) else none
  | .double, .f64 b => if b < 2 ^ 64 then some (natLE 8 b) else none
  | .string, .str s => some (s ++ [0])
  | _, _ => none

/-- The argument-packing part of `_struct_pack` over the whole format
string: one value per format character, in order.  A count mismatch is the
`IndexError` / `struct.error` that `pack_command` maps to `CommandError`. -/
def packArgs : List ArgType → List Val → Option (List Nat)
  | [], [] => some []
  | [], _ :: _ => none
  | _ :: _, [] => none
  | t :: ts, v :: vs =>
    match packVal t v, packArgs ts vs with
    | some b, some rest => some (b ++ rest)
    | _, _ => none

/-- Index of the first NUL byte, as `string[start:].find(chr(0))`. -/
def findNul : List Nat → Option Nat
  | [] => none
  | b :: t => if b = 0 then some 0 else (findNul t).map (fun k => k + 1)

/-- Decode a fixed-width signed integer from `w` little-endian bytes
(two's complement, as `struct.unpack` does for 'b','h','i','q'). -/
def sdec (w : Nat) (bs : List Nat) : Int :=
  let n := leNat bs
  if n < 2 ^ (8 * w - 1) then (n : Int) else (n : Int) - 2 ^ (8 * w)

/-- Consume one argument from the buffer, as `_struct_unpack` does for one
format character: fixed width for integer formats, and for 'z' everything
up to (and dropping) the first NUL, `none` when there is none
(`CommandError('No null char in string')`) or when the buffer is too short
for a fixed-width format (`struct.error`). -/
def unpackArg : ArgType → List Nat → Option (Val × List Nat)
  | .u8, bs => if 1 ≤ bs.length then some (.u8 (leNat (bs.take 1)), bs.drop 1) else none
  | .i8, bs => if 1 ≤ bs.length then some (.i8 (sdec 1 (bs.take 1)), bs.drop 1) else none
  | .u16, bs => if 2 ≤ bs.length then some (.u16 (leNat (bs.take 2)), bs.drop 2) else none
  | .i16, bs => if 2 ≤ bs.length then some (.i16 (sdec 2 (bs.take 2)), bs.drop 2) else none
  | .u32, bs => if 4 ≤ bs.length then some (.u32 (leNat (bs.take 4)), bs.drop 4) else none
  | .i32, bs => if 4 ≤ bs.length then some (.i32 (sdec 4 (bs.take 4)), bs.drop 4) else none
  | .u64, bs => if 8 ≤ bs.length then some (.u64 (leNat (bs.take 8)), bs.drop 8) else none
  | .i64, bs => if 8 ≤ bs.length then some (.i64 (sdec 8 (bs.take 8)), bs.drop 8) else none
  | .float, bs => if 4 ≤ bs.length then some (.f32 (leNat (bs.take 4)), bs.drop 4) else none
  | .double, bs => if 8 ≤ bs.length then some (.f64 (leNat (bs.take 8)), bs.drop 8) else none
  | .string, bs =>
    match findNul bs with
    | none => none
    | some k => some (.str (bs.take k), bs.drop (k + 1))

/-- All arguments in order, threading the remaining buffer. -/
def unpackArgs : List ArgType → List Nat → Option (List Val × List Nat)
  | [], bs => some ([], bs)
  | t :: ts, bs =>
    match unpackArg t bs with
    | none => none
    | some (v, rest) =>
      match unpackArgs ts rest with
      | none => none
      | some (vs, rest2) => some (v :: vs, rest2)

/-- `_struct_unpack fmt string`: sequential consumption plus the exactness
check `struct.unpack` performs (the buffer must be consumed entirely). -/
def structUnpack (ts : List ArgType) (bs : List Nat) : Option (List Val) :=
  match unpackArgs ts bs with
  | some (vs, []) => some vs
  | _ => none

/-- `ArCmdBufferType` of the external `arsdkparser` package
(`HIGH_PRIORITY` is that package's high-priority buffer kind). -/
inductive BufferKind where
  | NON_ACK
  | ACK
  | HIGH_PRIORITY
deriving DecidableEq

/-- `ArCmdListType` of the external `arsdkparser` package. -/
inductive ListKind where
  | NONE
  | LIST
  | MAP
deriving DecidableEq

/-- One command of the catalogue: name, wire id, resolved argument list
(name and wire type in declaration order), list semantics, recommended
buffer kind, timeout policy. -/
structure ArCmd where
  name : String
  cmdId : Nat
  args : List (String × ArgType)
  listType : ListKind
  bufferType : BufferKind
  timeoutPolicy : Nat
deriving DecidableEq

/-- One class of a project. -/
structure ArClass where
  name : String
  classId : Nat
  cmds : List ArCmd
deriving DecidableEq

/-- One classed project. -/
structure ArProject where
  name : String
  projectId : Nat
  classes : List ArClass
deriving DecidableEq

/-- One flat feature: commands and events share the wire id space on the
receive path. -/
structure ArFeature where
  name : String
  featureId : Nat
  cmds : List ArCmd
  evts : List ArCmd
deriving DecidableEq

/-- The parsed catalogue `_ctx`. -/
structure ArCtx where
  projects : List ArProject
  features : List ArFeature
deriving DecidableEq

/-- `CommandError` plus the raw `struct.error` that the header packing of
`pack_command` (outside any try block) and a non-3-part name in
`Device.send_data` would let escape. -/
inductive CmdErr where
  | commandError (msg : String)
  | structError
  | valueError
deriving DecidableEq

/-- The name-resolution part of `pack_command` (lines 122-157): a project
by name first, else a feature by name; for a project, class then command
by name inside it; for a feature, command by name directly (events are not
consulted on the send path).  Returns the header ids and the command. -/
def resolveCmd (ctx : ArCtx) (sProj sCls sCmd : String) :
    Except CmdErr (Nat × Nat × ArCmd) :=
  match ctx.projects.find? (fun p => p.name = sProj) with
  | some proj =>
    match proj.classes.find? (fun c => c.name = sCls) with
    | none => .error (.commandError ("Unknown class " ++ sCls))
    | some cls =>
      match cls.cmds.find? (fun c => c.name = sCmd) with
      | none => .error (.commandError ("Unknown command " ++ sCmd))
      | some cmd => .ok (proj.projectId, cls.classId, cmd)
  | none =>
    match ctx.features.find? (fun f => f.name = sProj) with
    | some feat =>
      match feat.cmds.find? (fun c => c.name = sCmd) with
      | none => .error (.commandError ("Unknown command " ++ sCmd))
      | some cmd => .ok (feat.featureId, 0, cmd)
    | none => .error (.commandError ("Unknown project " ++ sProj))

/-- `pack_command`: resolve, emit the `<BBH` header (whose `struct.pack`
is outside the try block, so an out-of-range id raises a bare
`struct.error`), then the arguments — which are skipped entirely (extra
call arguments ignored) when the command declares none. -/
def pack_command (ctx : ArCtx) (sProj sCls sCmd : String) (args : List Val) :
    Except CmdErr (List Nat × BufferKind × Nat) :=
  match resolveCmd ctx sProj sCls sCmd with
  | .error e => .error e
  | .ok (projid, clsid, cmd) =>
    if projid < 2 ^ 8 ∧ clsid < 2 ^ 8 ∧ cmd.cmdId < 2 ^ 16 then
      let header := [projid, clsid] ++ natLE 2 cmd.cmdId
      if cmd.args.isEmpty then
        .ok (header, cmd.bufferType, cmd.timeoutPolicy)
      else
        match packArgs (cmd.args.map (fun a => a.2)) args with
        | some bytes => .ok (header ++ bytes, cmd.bufferType, cmd.timeoutPolicy)
        | none => .error (.commandError "Bad arguments")
    else
      .error .structError

/-- The decoded record of `unpack_command`.  `arg0` defaults to the empty
string value, as in the source. -/
structure ArRecord where
  name : String
  proj : String
  cls : String
  cmd : String
  listtype : ListKind
  args : List (String × Val)
  arg0 : Val
deriving DecidableEq

/-- The all-empty record returned (as `{}`) alongside `known = False`. -/
def emptyRecord : ArRecord :=
  ⟨"", "", "", "", .NONE, [], .str []⟩

/-- Overwrite-or-append on an association list: Python dict insertion. -/
def assocSet {κ α : Type} [DecidableEq κ] :
    List (κ × α) → κ → α → List (κ × α)
  | [], k, v => [(k, v)]
  | (k0, v0) :: t, k, v =>
    if k0 = k then (k, v) :: t else (k0, v0) :: assocSet t k v

/-- Python dict lookup on an association list. -/
def assocGet {κ α : Type} [DecidableEq κ] : List (κ × α) → κ → Option α
  | [], _ => none
  | (k0, v0) :: t, k => if k0 = k then some v0 else assocGet t k

/-- The record-building tail of `unpack_command` (lines 238-262): unpack
the arguments from `buf[4:]` when the command declares any (otherwise the
remainder of the buffer is ignored), then fill the dictionary, `arg0`
being the first argument value when there is one. -/
def buildRecord (projName clsName : String) (cmd : ArCmd) (rest : List Nat) :
    Except CmdErr (ArRecord × Bool) :=
  let argvals : Except CmdErr (List Val) :=
    if cmd.args.isEmpty then .ok []
    else
      match structUnpack (cmd.args.map (fun a => a.2)) rest with
      | some vs => .ok vs
      | none => .error (.commandError "Bad input buffers")
  match argvals with
  | .error e => .error e
  | .ok vs =>
    .ok ({ name := projName ++ "." ++ clsName ++ "." ++ cmd.name
           proj := projName
           cls := clsName
           cmd := cmd.name
           listtype := cmd.listType
           args := ((cmd.args.map (fun a => a.1)).zip vs).foldl
             (fun d nv => assocSet d nv.1 nv.2) []
           arg0 := vs.headD (.str []) }, true)

/-- `unpack_command`: read the `<BBH` header from the first 4 bytes
(a shorter buffer is the caught `struct.error`, re-raised as
`CommandError`), look the ids up — project table and feature table are
both consulted, the project branch taking precedence — and decode.
Unknown ids yield `(emptyRecord, false)` without error. -/
def unpack_command (ctx : ArCtx) (buf : List Nat) :
    Except CmdErr (ArRecord × Bool) :=
  match buf with
  | b0 :: b1 :: b2 :: b3 :: rest =>
    let iCmd := leNat [b2, b3]
    match ctx.projects.find? (fun p => p.projectId = b0) with
    | some proj =>
      match proj.classes.find? (fun c => c.classId = b1) with
      | none => .ok (emptyRecord, false)
      | some cls =>
        match cls.cmds.find? (fun c => c.cmdId = iCmd) with
        | none => .ok (emptyRecord, false)
        | some cmd => buildRecord proj.name cls.name cmd rest
    | none =>
      match ctx.features.find? (fun f => f.featureId = b0) with
      | some feat =>
        match feat.cmds.find? (fun c => c.cmdId = iCmd) with
        | some cmd => buildRecord feat.name "" cmd rest
        | none =>
          match feat.evts.find? (fun c => c.cmdId = iCmd) with
          | some cmd => buildRecord feat.name "" cmd rest
          | none => .ok (emptyRecord, false)
      | none => .ok (emptyRecord, false)
  | _ => .error (.commandError "Bad input buffer (not an ARCommand)")

end Commands

/-! ## Bybop_Device : state store and device orchestrator

The `State` store is a three-level dictionary whose leaves are dynamically
typed in Python (an args dict, a list of them, or a dict of them keyed by
the first argument).  Leaves are a `Slot` sum here; calling `put_list` /
`put_map` on a leaf of the wrong shape is the `AttributeError` Python
would raise (`Except`).  `copy.deepcopy` on these pure values returns an
equal value; in the embedding it is the identity (object-graph sharing has
no counterpart on immutable data).  The waiter registry holds
`threading.Event`s whose signalling is a scheduling effect; it is not part
of the store model the claims need. -/

namespace DeviceM

/-- `copy.deepcopy` as seen through values: an equal, freshly built value. -/
def deepcopy {α : Type} (a : α) : α := a

/-- A leaf of the three-level `State` dictionary. -/
inductive Slot (κ α : Type) where
  | single (args : α)
  | list (l : List α)
  | map (m : List (κ × α))
deriving DecidableEq

/-- The three-level dictionary of `State`, as a partial map from the three
name components to a leaf. -/
def Store (κ α : Type) : Type := String → String → String → Option (Slot κ α)

/-- `State.__init__`: the empty store. -/
def emptyStore (κ α : Type) : Store κ α := fun _ _ _ => none

/-- Update one leaf of the store (the effect of writing through the
dictionaries `_getcldic` lazily creates). -/
def setSlot {κ α : Type} (st : Store κ α) (pr cl cmd : String)
    (s : Slot κ α) : Store κ α :=
  fun p c m => if p = pr ∧ c = cl ∧ m = cmd then some s else st p c m

/-- `State.put`: overwrite the slot with a deep copy of the args dict. -/
def put {κ α : Type} (st : Store κ α) (pr cl cmd : String) (args : α) :
    Store κ α :=
  setSlot st pr cl cmd (.single (deepcopy args))

/-- `State.put_list`: create an empty list slot if absent, then append a
deep copy.  `.error` is the `AttributeError` raised when the existing slot
is not a list. -/
def put_list {κ α : Type} (st : Store κ α) (pr cl cmd : String) (args : α) :
    Except String (Store κ α) :=
  match st pr cl cmd with
  | none => .ok (setSlot st pr cl cmd (.list [deepcopy args]))
  | some (.list l) => .ok (setSlot st pr cl cmd (.list (l ++ [deepcopy args])))
  | some _ => .error "AttributeError"

/-- `State.put_map`: create an empty map slot if absent, then insert a
deep copy under `key`.  `.error` is the `TypeError` raised when the
existing slot cannot be indexed by key. -/
def put_map {κ α : Type} [DecidableEq κ] (st : Store κ α)
    (pr cl cmd : String) (args : α) (key : κ) :
    Except String (Store κ α) :=
  match st pr cl cmd with
  | none => .ok (setSlot st pr cl cmd (.map [(key, deepcopy args)]))
  | some (.map m) =>
    .ok (setSlot st pr cl cmd (.map (Commands.assocSet m key (deepcopy args))))
  | some _ => .error "TypeError"

/-- `State.get_value`: split the name on dots — any count other than three
is the caught `ValueError`, yielding `None` — then walk the dictionaries
without creating levels, returning a deep copy of the slot or `None`. -/
def get_value {κ α : Type} (st : Store κ α) (name : String) :
    Option (Slot κ α) :=
  match splitDots name with
  | [pr, cl, cmd] => (st pr cl cmd).map deepcopy
  | _ => none

/-- The argument-dictionary type the device feeds the store. -/
def Args : Type := List (String × Commands.Val)

/-- `Device.data_received` (the Network listener): only command buffers
are considered; an unknown command (`ok = False`) is dropped; otherwise
the record is routed by its list type into `put` / `put_list` / `put_map`
with `arg0` as the map key.  A `CommandError` raised by `unpack_command`
is NOT caught here and escapes to the transport read loop, which has no
handler around the listener call either: `.error` is that uncaught
exception, and the store is unchanged when it happens. -/
def deviceDataReceived (ctx : Commands.ArCtx) (cmdBuffers : List Int)
    (st : Store Commands.Val Args) (buf : Int) (data : List Nat) :
    Except Commands.CmdErr (Store Commands.Val Args) :=
  if buf ∈ cmdBuffers then
    match Commands.unpack_command ctx data with
    | .error e => .error e
    | .ok (_, false) => .ok st
    | .ok (dico, true) =>
      match dico.listtype with
      | .NONE => .ok (put st dico.proj dico.cls dico.cmd dico.args)
      | .LIST =>
        match put_list st dico.proj dico.cls dico.cmd dico.args with
        | .ok st2 => .ok st2
        | .error _ => .error .structError
      | .MAP =>
        match put_map st dico.proj dico.cls dico.cmd dico.args dico.arg0 with
        | .ok st2 => .ok st2
        | .error _ => .error .structError
  else
    .ok st

/-- The buffer configuration of a `Device` (`-1` means "no buffer"). -/
structure DeviceCfg where
  ackBuffer : Int
  nackBuffer : Int
  urgBuffer : Int
deriving DecidableEq

/-- `Device.send_data`: split the name (a count other than three raises an
uncaught `ValueError`), pack (only `CommandError` is caught, yielding
`ERROR`), map the schema's recommended buffer kind to a configured buffer
id and a data type, reject an unconfigured (`-1`) buffer with `ERROR`,
else hand the bytes to `Network.send_data`.  The network call is returned
as data (`some (bufno, bytes, datatype)`) with `netResult` standing for
the status the Network layer would report; `none` means no network send
happened. -/
def deviceSendData (ctx : Commands.ArCtx) (cfg : DeviceCfg) (name : String)
    (args : List Commands.Val) (netResult : Network.NetStatus) :
    Except Commands.CmdErr
      (Network.NetStatus × Option (Int × List Nat × Nat)) :=
  match splitDots name with
  | [pr, cl, cm] =>
    match Commands.pack_command ctx pr cl cm args with
    | .error (.commandError _) => .ok (Network.NetStatus.ERROR, none)
    | .error e => .error e
    | .ok (cmd, bufKind, _) =>
      let bufno : Int :=
        match bufKind with
        | .NON_ACK => cfg.nackBuffer
        | .ACK => cfg.ackBuffer
        | .HIGH_PRIORITY => cfg.urgBuffer
      let datatype : Nat :=
        match bufKind with
        | .NON_ACK => NetworkAL.DATA
        | .ACK => NetworkAL.DATA_WITH_ACK
        | .HIGH_PRIORITY => NetworkAL.DATA_LOW_LATENCY
      if bufno = -1 then .ok (Network.NetStatus.ERROR, none)
      else .ok (netResult, some (bufno, cmd, datatype))
  | _ => .error .valueError

end DeviceM

/-! ## Derived definitions used by the statements below -/

/-- `n` successive calls of `Network._get_seq` on the same buffer (state
after; each call's return value is the counter before the call). -/
def allocN (st : Network.NetState) (buf : Int) : Nat → Network.NetState
  | 0 => st
  | n + 1 => (Network.getSeq (allocN st buf n) buf).2

/-- The spec's signed-8-bit evaluation of a difference: the representative
of `d` modulo 256 lying in `[-128, 127]`.  This definition follows the
SPECIFICATION's words, for comparison with `Network._should_accept`. -/
def sign8 (d : Int) : Int :=
  (d + 128) % 256 - 128

/-- The spec's acceptance rule: accept iff the signed-8-bit difference
`new_seq - last` is `≥ 1` or `≤ -10`.  This definition follows the
SPECIFICATION's words, not the source. -/
def specAccept8 (seq last : Nat) : Bool :=
  decide (1 ≤ sign8 ((seq : Int) - (last : Int))) ||
    decide (sign8 ((seq : Int) - (last : Int)) ≤ -10)

/-- Encode one frame with `NetworkAL.send_data`. -/
def alSendFrame (f : NetworkAL.Frame) : Option (List Nat) :=
  NetworkAL.alSendData f.type f.buf f.seq f.payload

/-- The wire bytes of a valid frame (the `some` value of `alSendFrame`). -/
def frameBytes (f : NetworkAL.Frame) : List Nat :=
  [f.type, f.buf.toNat, f.seq] ++ natLE 4 (f.payload.length + 7) ++ f.payload

/-- A UDP datagram concatenating the encodings of a list of frames. -/
def datagramOf (fs : List NetworkAL.Frame) : List Nat :=
  (fs.map frameBytes).flatten

/-- `n` successive `State.put_list` calls on the same slot, in order. -/
def putListN {κ α : Type} :
    DeviceM.Store κ α → String → String → String → List α →
      Except String (DeviceM.Store κ α)
  | st, _, _, _, [] => .ok st
  | st, pr, cl, cmd, v :: vs =>
    match DeviceM.put_list st pr cl cmd v with
    | .ok st2 => putListN st2 pr cl cmd vs
    | .error e => .error e

/-- Frame-field validity: the ranges `struct.pack('<BBBI', ...)` accepts. -/
def frameValid (f : NetworkAL.Frame) : Prop :=
  f.type < 256 ∧ 0 ≤ f.buf ∧ f.buf < 256 ∧ f.seq < 256 ∧
    f.payload.length + 7 < 2 ^ 32

/-- String argument values with no embedded NUL byte.  The wire format is
NUL-terminated, so it cannot represent an embedded NUL: a string value
containing one packs fine but cannot decode back (schema-validity in the
round-trip sense excludes it). -/
def nulFree : Commands.Val → Prop
  | .str s => ¬ 0 ∈ s
  | _ => True

/-- Well-formedness of the parsed catalogue, reflecting what the XML
parser's paired by-name / by-id dictionaries guarantee: wire ids are
unique at each level, feature ids do not collide with project ids (the
`u8` id space is shared on the wire), and each command's argument names
are distinct. -/
def ctxWF (ctx : Commands.ArCtx) : Prop :=
  (ctx.projects.map (fun p => p.projectId)).Nodup ∧
    (ctx.features.map (fun f => f.featureId)).Nodup ∧
    (∀ f ∈ ctx.features, ∀ p ∈ ctx.projects, f.featureId ≠ p.projectId) ∧
    (∀ p ∈ ctx.projects, (p.classes.map (fun c => c.classId)).Nodup ∧
      ∀ c ∈ p.classes, (c.cmds.map (fun m => m.cmdId)).Nodup ∧
        ∀ m ∈ c.cmds, (m.args.map (fun a => a.1)).Nodup) ∧
    (∀ f ∈ ctx.features, (f.cmds.map (fun m => m.cmdId)).Nodup ∧
      ∀ m ∈ f.cmds, (m.args.map (fun a => a.1)).Nodup)

/-- A one-feature catalogue: flat feature "gen" (id 1) with the
argument-less command "c" (id 0). -/
def ctxFeat : Commands.ArCtx :=
  ⟨[], [⟨"gen", 1, [⟨"c", 0, [], .NONE, .ACK, 0⟩], []⟩]⟩

/-- A one-project catalogue: project "pr" (id 1), class "cl" (id 2),
command "cm" (id 3) with a `u8` argument "x" and a string argument "s". -/
def ctxProj : Commands.ArCtx :=
  ⟨[⟨"pr", 1, [⟨"cl", 2, [⟨"cm", 3,
    [("x", Commands.ArgType.u8), ("s", Commands.ArgType.string)],
    Commands.ListKind.NONE, Commands.BufferKind.ACK, 0⟩]⟩]⟩], []⟩

/-! # Theorems -/

/-! ## Byte-encoding lemmas -/

theorem natLE_length (w n : Nat) : (natLE w n).length = w := by
  induction w generalizing n with
  | zero => rfl
  | succ w ih => simp [natLE, ih]

theorem leNat_natLE (w n : Nat) : leNat (natLE w n) = n % 256 ^ w := by
  induction w generalizing n with
  | zero => simp [natLE, leNat, Nat.mod_one]
  | succ w ih =>
    simp only [natLE, leNat, ih]
    rw [show (256 : Nat) ^ (w + 1) = 256 * 256 ^ w by ring, Nat.mod_mul]

theorem leNat_natLE_of_lt {w n : Nat} (h : n < 256 ^ w) :
    leNat (natLE w n) = n := by
  rw [leNat_natLE, Nat.mod_eq_of_lt h]

theorem upd_same {β : Type} (f : Int → β) (k : Int) (v : β) :
    Network.upd f k v k = v := by
  simp [Network.upd]

theorem upd_other {β : Type} (f : Int → β) (k : Int) (v : β) (x : Int)
    (h : x ≠ k) : Network.upd f k v x = f x := by
  simp [Network.upd, h]

/-! ## C1 : inbound sequence acceptance -/

/-- C1, counterexample.  On a fresh receive buffer (`last = 255`) the code
accepts a frame whose sequence is 255 — the plain difference is 0, and
`_should_accept` tests `diff >= 0` — while the claimed signed-8-bit rule
(`diff ≥ 1` or `diff ≤ -10`) rejects it: the claimed acceptance condition
is not the one the code implements. -/
theorem C1_counterexample :
    (Network.shouldAccept (Network.newNetwork [] [126]) 126 255).1 = true ∧
      specAccept8 255 255 = false := by
  constructor
  · rfl
  · rfl

/-- C1, amended: for every receive buffer, with the last-accepted sequence
initialised to 255, an incoming data frame with sequence `s` is accepted
iff the PLAIN integer difference `s - last` (no 8-bit reduction; both
operands in `[0, 255]`) is `≥ 0` or `≤ -10`; on acceptance `last` is
updated to `s`, and a rejected frame leaves the state unchanged and is not
delivered to the listener. -/
theorem C1_amended (sb rb : List Int) (st : Network.NetState) (buf : Int)
    (s : Nat) (data : List Nat) (hbuf : buf ∈ st.recvBuffers) :
    (Network.newNetwork sb rb).recvSeq buf = 255 ∧
      ((Network.shouldAccept st buf s).1 = true ↔
        (0 ≤ (s : Int) - (st.recvSeq buf : Int) ∨
          (s : Int) - (st.recvSeq buf : Int) ≤ -10)) ∧
      ((Network.shouldAccept st buf s).1 = true →
        (Network.shouldAccept st buf s).2.recvSeq buf = s) ∧
      ((Network.shouldAccept st buf s).1 = false →
        (Network.shouldAccept st buf s).2 = st ∧
          Network.processData st buf s data = (st, [])) := by
  by_cases hok : (decide (0 ≤ (s : Int) - (st.recvSeq buf : Int)) ||
      decide ((s : Int) - (st.recvSeq buf : Int) ≤ -10)) = true
  · have hsa : Network.shouldAccept st buf s =
        (true, { st with recvSeq := Network.upd st.recvSeq buf s }) := by
      simp only [Network.shouldAccept, if_pos hbuf, hok, if_true]
    rw [Bool.or_eq_true, decide_eq_true_eq, decide_eq_true_eq] at hok
    refine ⟨rfl, ?_, ?_, ?_⟩
    · rw [hsa]
      simpa using hok
    · intro _
      rw [hsa]
      simp [Network.upd]
    · intro hfalse
      rw [hsa] at hfalse
      simp at hfalse
  · have hsa : Network.shouldAccept st buf s = (false, st) := by
      simp only [Network.shouldAccept, if_pos hbuf, hok, if_false]
      simp
    rw [Bool.or_eq_true, decide_eq_true_eq, decide_eq_true_eq] at hok
    push_neg at hok
    refine ⟨rfl, ?_, ?_, ?_⟩
    · rw [hsa]
      constructor
      · intro hc
        exact Bool.noConfusion hc
      · rintro (hc | hc) <;> (exfalso; omega)
    · intro htrue
      rw [hsa] at htrue
      simp at htrue
    · intro _
      exact ⟨by rw [hsa], by simp [Network.processData, hsa]⟩

/-- C1, witness: the amended theorem at a concrete state — a fresh buffer
126 receiving sequence 245 (difference `-10`, accepted). -/
theorem C1_witness :
    (126 : Int) ∈ (Network.newNetwork [] [126]).recvBuffers ∧
      (Network.shouldAccept (Network.newNetwork [] [126]) 126 245).1 = true := by
  have h := C1_amended [] [126] (Network.newNetwork [] [126]) 126 245 []
    (by decide)
  refine ⟨by decide, ?_⟩
  exact h.2.1.mpr (by right; decide)

/-! ## C5 : outbound sequence allocation -/

/-- The counter value after `n` allocations on a fresh network. -/
theorem allocN_sendSeq (sb rb : List Int) (buf : Int) (n : Nat) :
    (allocN (Network.newNetwork sb rb) buf n).sendSeq buf = n % 256 := by
  induction n with
  | zero => rfl
  | succ n ih =>
    show Network.upd (allocN (Network.newNetwork sb rb) buf n).sendSeq buf
        (((allocN (Network.newNetwork sb rb) buf n).sendSeq buf + 1) % 256)
        buf = (n + 1) % 256
    rw [upd_same, ih]
    omega

/-- C5: on a fresh send buffer the allocator starts at 0 and the `n`-th
allocation (0-based) returns `n % 256`, i.e. 0, 1, …, 255, 0, …; in
general each allocation returns the stored counter and leaves the counter
at that value plus one modulo 256. -/
theorem C5_seq_allocation (sb rb : List Int) (buf : Int)
    (st : Network.NetState) (n : Nat) :
    (Network.getSeq (allocN (Network.newNetwork sb rb) buf n) buf).1 =
        n % 256 ∧
      (Network.getSeq st buf).1 = st.sendSeq buf ∧
      (Network.getSeq st buf).2.sendSeq buf =
        ((Network.getSeq st buf).1 + 1) % 256 := by
  refine ⟨?_, rfl, ?_⟩
  · exact allocN_sendSeq sb rb buf n
  · show Network.upd st.sendSeq buf ((st.sendSeq buf + 1) % 256) buf =
      (st.sendSeq buf + 1) % 256
    simp [Network.upd]

/-! ## Preservation lemmas for the Network listener -/

theorem shouldAccept_sendSeq (st : Network.NetState) (buf : Int) (seq : Nat) :
    (Network.shouldAccept st buf seq).2.sendSeq = st.sendSeq := by
  simp only [Network.shouldAccept]
  split_ifs <;> rfl

theorem processData_sendSeq (st : Network.NetState) (buf : Int) (seq : Nat)
    (data : List Nat) :
    (Network.processData st buf seq data).1.sendSeq = st.sendSeq := by
  simp only [Network.processData]
  split_ifs <;> exact shouldAccept_sendSeq st buf seq

theorem sendAck_sendSeq (st : Network.NetState) (buf : Int) (seq : Nat)
    (b : Int) (hb : b ≠ buf + 128) :
    (Network.sendAck st buf seq).1.sendSeq b = st.sendSeq b := by
  simp only [Network.sendAck]
  split_ifs
  · cases NetworkAL.alSendData NetworkAL.ACK (buf + 128)
        (Network.getSeq st (buf + 128)).1 [seq] with
    | none => exact upd_other _ _ _ _ hb
    | some bytes => exact upd_other _ _ _ _ hb
  · rfl

theorem core_sendSeq (st : Network.NetState) (type : Nat) (buf : Int)
    (seq : Nat) (data : List Nat) (b : Int) (hb : b ≠ buf + 128) :
    (Network.dataReceivedCore st type buf seq data).1.sendSeq b =
      st.sendSeq b := by
  simp only [Network.dataReceivedCore]
  by_cases hA : type = NetworkAL.ACK
  · simp only [if_pos hA]
    rcases data with _ | ⟨x, _ | ⟨y, t⟩⟩
    · split_ifs <;> rfl
    · by_cases hm : (buf - 128) ∈ st.sendBuffers
      · by_cases hx : x = st.ackSeq (buf - 128) <;> simp [hm, hx]
      · simp [hm]
    · split_ifs <;> rfl
  · simp only [if_neg hA]
    by_cases hD : type = NetworkAL.DATA
    · simp only [if_pos hD]
      exact congrFun (processData_sendSeq st buf seq data) b
    · simp only [if_neg hD]
      by_cases hL : type = NetworkAL.DATA_LOW_LATENCY
      · simp only [if_pos hL]
        exact congrFun (processData_sendSeq st buf seq data) b
      · simp only [if_neg hL]
        by_cases hW : type = NetworkAL.DATA_WITH_ACK
        · simp only [if_pos hW]
          rw [sendAck_sendSeq _ buf seq b hb]
          exact congrFun (processData_sendSeq st buf seq data) b
        · simp only [if_neg hW]

/-! ## C8 : ACK frame handling -/

/-- C8, counterexample.  An ACK-type frame on buffer 0 does NOT leave the
state unchanged even though `0 - 128` is no declared send buffer: the
unconditional ping reply fires first, sending a pong and advancing
buffer 1's outbound counter.  So "in every other case the frame causes no
state change" fails as stated. -/
theorem C8_counterexample :
    (Network.dataReceived (Network.newNetwork [1] []) NetworkAL.ACK 0 0
        [7]).1.sendSeq 1 = 1 ∧
      (Network.newNetwork [1] []).sendSeq 1 = 0 ∧
      (Network.dataReceived (Network.newNetwork [1] []) NetworkAL.ACK 0 0
        [7]).2.1 = [⟨NetworkAL.DATA, 1, 0, [7]⟩] := by
  refine ⟨by decide, by decide, by decide⟩

/-- C8, amended: on receipt of an ACK-type frame on a buffer `b ≠ 0` with
a one-byte payload, the ack event of buffer `b - 128` is signalled iff
`b - 128` is a declared send buffer and the payload byte equals that
buffer's stored pending-ack sequence; in every other case the frame
changes no state (a frame on buffer 0 additionally triggers the
unconditional ping-pong reply, which advances buffer 1's outbound
counter — see the ping/pong theorem). -/
theorem C8_amended (st : Network.NetState) (buf : Int) (seq a : Nat)
    (h0 : buf ≠ 0) :
    (Network.dataReceived st NetworkAL.ACK buf seq [a]).2.2.2 = none ∧
      (Network.dataReceived st NetworkAL.ACK buf seq [a]).2.2.1 = [] ∧
      (Network.dataReceived st NetworkAL.ACK buf seq [a]).2.1 = [] ∧
      (∀ b, (Network.dataReceived st NetworkAL.ACK buf seq [a]).1.ackEvent b =
        if b = buf - 128 ∧ (buf - 128) ∈ st.sendBuffers ∧
            a = st.ackSeq (buf - 128) then
          true
        else st.ackEvent b) ∧
      (Network.dataReceived st NetworkAL.ACK buf seq [a]).1.sendSeq =
        st.sendSeq ∧
      (Network.dataReceived st NetworkAL.ACK buf seq [a]).1.recvSeq =
        st.recvSeq ∧
      (Network.dataReceived st NetworkAL.ACK buf seq [a]).1.ackSeq =
        st.ackSeq ∧
      (Network.dataReceived st NetworkAL.ACK buf seq [a]).1.sendBuffers =
        st.sendBuffers ∧
      (Network.dataReceived st NetworkAL.ACK buf seq [a]).1.recvBuffers =
        st.recvBuffers := by
  have hc : Network.dataReceivedCore st NetworkAL.ACK buf seq [a] =
      if (buf - 128) ∈ st.sendBuffers then
        if a = st.ackSeq (buf - 128) then
          ({ st with ackEvent := Network.upd st.ackEvent (buf - 128) true },
            [], [], none)
        else (st, [], [], none)
      else (st, [], [], none) := by
    simp only [Network.dataReceivedCore]
    rfl
  have hd : Network.dataReceived st NetworkAL.ACK buf seq [a] =
      if (buf - 128) ∈ st.sendBuffers then
        if a = st.ackSeq (buf - 128) then
          ({ st with ackEvent := Network.upd st.ackEvent (buf - 128) true },
            [], [], none)
        else (st, [], [], none)
      else (st, [], [], none) := by
    simp only [Network.dataReceived, if_neg h0, hc]
    split_ifs <;> rfl
  by_cases hm : (buf - 128) ∈ st.sendBuffers
  · by_cases ha : a = st.ackSeq (buf - 128)
    · rw [hd, if_pos hm, if_pos ha]
      refine ⟨rfl, rfl, rfl, ?_, rfl, rfl, rfl, rfl, rfl⟩
      intro b
      by_cases hb : b = buf - 128
      · simp [Network.upd, hb, hm, ha]
      · simp [Network.upd, hb]
    · rw [hd, if_pos hm, if_neg ha]
      refine ⟨rfl, rfl, rfl, ?_, rfl, rfl, rfl, rfl, rfl⟩
      intro b
      simp [ha]
  · rw [hd, if_neg hm]
    refine ⟨rfl, rfl, rfl, ?_, rfl, rfl, rfl, rfl, rfl⟩
    intro b
    simp [hm]

/-- C8, witness: the amended theorem at a concrete state — send buffer 2
declared with pending-ack seq 0, an ACK frame on buffer 130 carrying
payload byte 0 sets buffer 2's ack event. -/
theorem C8_witness :
    (130 : Int) ≠ 0 ∧
      (Network.dataReceived (Network.newNetwork [2] []) NetworkAL.ACK 130 0
        [0]).1.ackEvent 2 = true := by
  have h := C8_amended (Network.newNetwork [2] []) 130 0 0 (by decide)
  refine ⟨by decide, ?_⟩
  have hb := h.2.2.2.1 2
  rw [hb]
  simp [Network.newNetwork]

/-! ## C9 : ping / pong -/

/-- C9: every frame received on buffer 0, whatever its data type, makes
the first transport send a pong on buffer 1 with data type DATA, the
sequence drawn from buffer 1's own outbound counter (which advances), and
a payload identical to the ping payload. -/
theorem C9_ping_pong (st : Network.NetState) (type seq : Nat)
    (data : List Nat) (h1 : st.sendSeq 1 < 256)
    (h2 : data.length + 7 < 2 ^ 32) :
    (Network.dataReceived st type 0 seq data).2.1.head? =
        some ⟨NetworkAL.DATA, 1, st.sendSeq 1, data⟩ ∧
      (Network.dataReceived st type 0 seq data).1.sendSeq 1 =
        (st.sendSeq 1 + 1) % 256 := by
  have hcond : NetworkAL.DATA < 256 ∧ (0 : Int) ≤ 1 ∧ (1 : Int) < 256 ∧
      st.sendSeq 1 < 256 ∧ data.length + 7 < 2 ^ 32 :=
    ⟨by norm_num [NetworkAL.DATA], by norm_num, by norm_num, h1, h2⟩
  have hpong : Network.sendPong st data =
      ({ st with sendSeq := Network.upd st.sendSeq 1 ((st.sendSeq 1 + 1) % 256) },
        [⟨NetworkAL.DATA, 1, st.sendSeq 1, data⟩], none) := by
    simp only [Network.sendPong, Network.getSeq, NetworkAL.alSendData,
      if_pos hcond]
  have hr : Network.dataReceived st type 0 seq data =
      ((Network.dataReceivedCore
          { st with sendSeq :=
              Network.upd st.sendSeq 1 ((st.sendSeq 1 + 1) % 256) }
          type 0 seq data).1,
        (⟨NetworkAL.DATA, 1, st.sendSeq 1, data⟩ : NetworkAL.Frame) ::
          (Network.dataReceivedCore
            { st with sendSeq :=
                Network.upd st.sendSeq 1 ((st.sendSeq 1 + 1) % 256) }
            type 0 seq data).2.1,
        (Network.dataReceivedCore
          { st with sendSeq :=
              Network.upd st.sendSeq 1 ((st.sendSeq 1 + 1) % 256) }
          type 0 seq data).2.2.1,
        (Network.dataReceivedCore
          { st with sendSeq :=
              Network.upd st.sendSeq 1 ((st.sendSeq 1 + 1) % 256) }
          type 0 seq data).2.2.2) := by
    simp [Network.dataReceived, hpong]
  rw [hr]
  constructor
  · rfl
  · show (Network.dataReceivedCore _ type 0 seq data).1.sendSeq 1 = _
    rw [core_sendSeq _ type 0 seq data 1 (by decide)]
    exact upd_same st.sendSeq 1 _

/-- C9, witness: a concrete ping — fresh network, a 4-byte DATA frame on
buffer 0 produces the echoing pong with seq 0 from buffer 1's counter. -/
theorem C9_witness :
    (Network.newNetwork [] []).sendSeq 1 < 256 ∧
      ([5, 6, 7, 8] : List Nat).length + 7 < 2 ^ 32 ∧
      (Network.dataReceived (Network.newNetwork [] []) NetworkAL.DATA 0 9
          [5, 6, 7, 8]).2.1.head? =
        some ⟨NetworkAL.DATA, 1, 0, [5, 6, 7, 8]⟩ := by
  have h := C9_ping_pong (Network.newNetwork [] []) NetworkAL.DATA 9
    [5, 6, 7, 8] (by decide) (by norm_num)
  exact ⟨by decide, by norm_num, h.1⟩

/-! ## C4 : send_data status semantics -/

theorem sendLoop_noack (oracle : Nat → Bool × Bool) (tries sent : Nat) :
    Network.sendLoop false oracle (tries + 1) sent =
      ((if (oracle sent).1 then Network.NetStatus.OK
        else Network.NetStatus.ERROR), sent + 1) := by
  by_cases h : (oracle sent).1 <;>
    simp [Network.sendLoop, h]

theorem sendLoop_ack_timeout (oracle : Nat → Bool × Bool) (tries sent : Nat)
    (h : ∀ i, i < tries → oracle (sent + i) = (true, false)) :
    Network.sendLoop true oracle tries sent =
      (Network.NetStatus.TIMEOUT, sent + tries) := by
  induction tries generalizing sent with
  | zero => simp [Network.sendLoop]
  | succ t ih =>
    have h0 : oracle sent = (true, false) := by
      simpa using h 0 (by omega)
    have hrec : Network.sendLoop true oracle (t + 1) sent =
        Network.sendLoop true oracle t (sent + 1) := by
      simp [Network.sendLoop, h0]
    rw [hrec, ih (sent + 1) (fun i hi => by
      have := h (i + 1) (by omega)
      simpa [Nat.add_assoc, Nat.add_comm, Nat.add_left_comm] using this)]
    exact congrArg _ (by omega)

theorem sendLoop_ack_stop (oracle : Nat → Bool × Bool) :
    ∀ (j tries sent : Nat), j < tries →
      (∀ i, i < j → oracle (sent + i) = (true, false)) →
      (((oracle (sent + j)).1 = false →
        Network.sendLoop true oracle tries sent =
          (Network.NetStatus.ERROR, sent + j + 1)) ∧
      (oracle (sent + j) = (true, true) →
        Network.sendLoop true oracle tries sent =
          (Network.NetStatus.OK, sent + j + 1))) := by
  intro j
  induction j with
  | zero =>
    intro tries sent hj hbefore
    obtain ⟨t, rfl⟩ : ∃ t, tries = t + 1 := ⟨tries - 1, by omega⟩
    constructor
    · intro hfail
      rw [Nat.add_zero] at hfail
      simp [Network.sendLoop, hfail]
    · intro hok
      rw [Nat.add_zero] at hok
      simp [Network.sendLoop, hok]
  | succ j ih =>
    intro tries sent hj hbefore
    obtain ⟨t, rfl⟩ : ∃ t, tries = t + 1 := ⟨tries - 1, by omega⟩
    have h0 : oracle sent = (true, false) := by
      simpa using hbefore 0 (by omega)
    have hrec : Network.sendLoop true oracle (t + 1) sent =
        Network.sendLoop true oracle t (sent + 1) := by
      simp [Network.sendLoop, h0]
    have hshift : ∀ i, i < j → oracle (sent + 1 + i) = (true, false) := by
      intro i hi
      have := hbefore (i + 1) (by omega)
      simpa [Nat.add_assoc, Nat.add_comm, Nat.add_left_comm] using this
    have hidx : sent + 1 + j = sent + (j + 1) := by omega
    obtain ⟨ha, hb⟩ := ih t (sent + 1) (by omega) hshift
    refine ⟨?_, ?_⟩
    · intro hfail
      rw [hrec, ha (by rw [hidx]; exact hfail)]
      exact congrArg _ (by omega)
    · intro hok
      rw [hrec, hb (by rw [hidx]; exact hok)]
      exact congrArg _ (by omega)

/-- C4: `Network.send_data` returns ERROR with no transport send on an
undeclared buffer; for non-acknowledged types (given at least one try) it
performs exactly one transport send, OK iff the socket write succeeded;
for DATA_WITH_ACK it retries while attempts time out — all `tries`
attempts sent-but-unacknowledged gives TIMEOUT after exactly `tries`
sends, a failed socket write at attempt `j` gives ERROR immediately after
`j + 1` sends, and an acknowledged attempt `j` gives OK after `j + 1`
sends. -/
theorem C4_send_data (st : Network.NetState) (buf : Int) (type : Nat)
    (tries : Nat) (oracle : Nat → Bool × Bool) :
    (buf ∉ st.sendBuffers →
      Network.sendData st buf type tries oracle =
        (Network.NetStatus.ERROR, 0, st)) ∧
    (buf ∈ st.sendBuffers → type ≠ NetworkAL.DATA_WITH_ACK → 1 ≤ tries →
      (Network.sendData st buf type tries oracle).1 =
        (if (oracle 0).1 then Network.NetStatus.OK
          else Network.NetStatus.ERROR) ∧
      (Network.sendData st buf type tries oracle).2.1 = 1) ∧
    (buf ∈ st.sendBuffers → type = NetworkAL.DATA_WITH_ACK →
      ((∀ i, i < tries → oracle i = (true, false)) →
        (Network.sendData st buf type tries oracle).1 =
            Network.NetStatus.TIMEOUT ∧
          (Network.sendData st buf type tries oracle).2.1 = tries) ∧
      (∀ j, j < tries → (∀ i, i < j → oracle i = (true, false)) →
        (oracle j).1 = false →
        (Network.sendData st buf type tries oracle).1 =
            Network.NetStatus.ERROR ∧
          (Network.sendData st buf type tries oracle).2.1 = j + 1) ∧
      (∀ j, j < tries → (∀ i, i < j → oracle i = (true, false)) →
        oracle j = (true, true) →
        (Network.sendData st buf type tries oracle).1 =
            Network.NetStatus.OK ∧
          (Network.sendData st buf type tries oracle).2.1 = j + 1)) := by
  refine ⟨?_, ?_, ?_⟩
  · intro hm
    simp [Network.sendData, hm]
  · intro hm hnw ht
    obtain ⟨t, rfl⟩ : ∃ t, tries = t + 1 := ⟨tries - 1, by omega⟩
    have hsl : Network.sendData st buf type (t + 1) oracle =
        ((Network.sendLoop false oracle (t + 1) 0).1,
          (Network.sendLoop false oracle (t + 1) 0).2,
          (Network.getSeq st buf).2) := by
      simp [Network.sendData, hm, hnw]
    rw [hsl, sendLoop_noack]
    exact ⟨rfl, rfl⟩
  · intro hm hw
    have hsl : Network.sendData st buf type tries oracle =
        ((Network.sendLoop true oracle tries 0).1,
          (Network.sendLoop true oracle tries 0).2,
          { (Network.getSeq st buf).2 with
              ackEvent := Network.upd (Network.getSeq st buf).2.ackEvent
                buf false
              ackSeq := Network.upd (Network.getSeq st buf).2.ackSeq buf
                (Network.getSeq st buf).1 }) := by
      simp [Network.sendData, hm, hw]
    refine ⟨?_, ?_, ?_⟩
    · intro hall
      rw [hsl, sendLoop_ack_timeout oracle tries 0
        (fun i hi => by simpa using hall i hi)]
      refine ⟨rfl, ?_⟩
      show (0 : Nat) + tries = tries
      omega
    · intro j hj hbefore hfail
      obtain ⟨ha, _⟩ := sendLoop_ack_stop oracle j tries 0 hj
        (fun i hi => by simpa using hbefore i hi)
      rw [hsl, ha (by simpa using hfail)]
      refine ⟨rfl, ?_⟩
      show (0 : Nat) + j + 1 = j + 1
      omega
    · intro j hj hbefore hok
      obtain ⟨_, hb⟩ := sendLoop_ack_stop oracle j tries 0 hj
        (fun i hi => by simpa using hbefore i hi)
      rw [hsl, hb (by simpa using hok)]
      refine ⟨rfl, ?_⟩
      show (0 : Nat) + j + 1 = j + 1
      omega

/-- C4, witness: a declared buffer, acknowledged type, five tries, every
attempt sent but never acknowledged — status TIMEOUT after five sends. -/
theorem C4_witness :
    (11 : Int) ∈ (Network.newNetwork [11] []).sendBuffers ∧
      (Network.sendData (Network.newNetwork [11] []) 11
          NetworkAL.DATA_WITH_ACK 5 (fun _ => (true, false))).1 =
        Network.NetStatus.TIMEOUT ∧
      (Network.sendData (Network.newNetwork [11] []) 11
          NetworkAL.DATA_WITH_ACK 5 (fun _ => (true, false))).2.1 = 5 := by
  have h := C4_send_data (Network.newNetwork [11] []) 11
    NetworkAL.DATA_WITH_ACK 5 (fun _ => (true, false))
  have hc := (h.2.2 (by decide) rfl).1 (fun i _ => rfl)
  exact ⟨by decide, hc.1, hc.2⟩

/-! ## C6 : frame wire format and datagram walk -/

theorem readFrames_cons (fuel : Nat) (f : NetworkAL.Frame) (d' : List Nat)
    (hv : frameValid f) :
    NetworkAL.readFrames (fuel + 1) (frameBytes f ++ d') =
      (NetworkAL.readFrames fuel d').map (fun fs => f :: fs) := by
  obtain ⟨h1, h2, h3, h4, h5⟩ := hv
  have h5' : f.payload.length + 7 < 4294967296 := by
    norm_num at h5
    exact h5
  have hL : leNat [(f.payload.length + 7) % 256,
      (f.payload.length + 7) / 256 % 256,
      (f.payload.length + 7) / 256 / 256 % 256,
      (f.payload.length + 7) / 256 / 256 / 256 % 256] =
      f.payload.length + 7 := by
    have hlt : f.payload.length + 7 < 256 ^ 4 := by
      norm_num
      omega
    simpa [natLE] using leNat_natLE_of_lt hlt
  have hf : (⟨f.type, Int.ofNat f.buf.toNat, f.seq, f.payload⟩ :
      NetworkAL.Frame) = f := by
    have hbuf : Int.ofNat f.buf.toNat = f.buf := Int.toNat_of_nonneg h2
    rw [hbuf]
  show NetworkAL.readFrames (fuel + 1)
      (f.type :: f.buf.toNat :: f.seq ::
        (f.payload.length + 7) % 256 ::
        (f.payload.length + 7) / 256 % 256 ::
        (f.payload.length + 7) / 256 / 256 % 256 ::
        (f.payload.length + 7) / 256 / 256 / 256 % 256 ::
        (f.payload ++ d')) =
      (NetworkAL.readFrames fuel d').map (fun fs => f :: fs)
  simp only [NetworkAL.readFrames, hL]
  have hdrop : (f.type :: f.buf.toNat :: f.seq ::
      (f.payload.length + 7) % 256 ::
      (f.payload.length + 7) / 256 % 256 ::
      (f.payload.length + 7) / 256 / 256 % 256 ::
      (f.payload.length + 7) / 256 / 256 / 256 % 256 ::
      (f.payload ++ d')).drop (f.payload.length + 7) = d' := by
    rw [show f.payload.length + 7 = 7 + f.payload.length by omega,
      ← List.drop_drop]
    show (f.payload ++ d').drop f.payload.length = d'
    exact List.drop_left f.payload d'
  have htake : (f.payload ++ d').take (f.payload.length + 7 - 7) =
      f.payload := by
    rw [Nat.add_sub_cancel]
    exact List.take_left f.payload d'
  rw [hdrop, htake, hf]

/-- C6: a transmitted frame is the 7-byte header
`<type:u8><buffer:u8><seq:u8><total_len:u32_le>` followed by the payload,
with `total_len = payload length + 7`; and the read loop, run on a
datagram concatenating any list of valid frames, delivers exactly those
`(type, buffer, seq, payload)` tuples in order, consuming `total_len`
bytes per frame until the datagram is exhausted. -/
theorem C6_frame_roundtrip (fs : List NetworkAL.Frame)
    (hv : ∀ f ∈ fs, frameValid f) :
    (∀ f ∈ fs, alSendFrame f = some (frameBytes f)) ∧
      (∀ f ∈ fs,
        frameBytes f = [f.type, f.buf.toNat, f.seq] ++
            natLE 4 (f.payload.length + 7) ++ f.payload ∧
          leNat (natLE 4 (f.payload.length + 7)) = f.payload.length + 7 ∧
          (frameBytes f).length = f.payload.length + 7) ∧
      (∀ fuel, fs.length ≤ fuel →
        NetworkAL.readFrames fuel (datagramOf fs) = some fs) := by
  refine ⟨?_, ?_, ?_⟩
  · intro f hf
    obtain ⟨h1, h2, h3, h4, h5⟩ := hv f hf
    have h5' : f.payload.length + 7 < 4294967296 := by
      norm_num at h5
      exact h5
    simp [alSendFrame, NetworkAL.alSendData, frameBytes, h1, h2, h3, h4]
    omega
  · intro f hf
    obtain ⟨h1, h2, h3, h4, h5⟩ := hv f hf
    have h5' : f.payload.length + 7 < 4294967296 := by
      norm_num at h5
      exact h5
    refine ⟨rfl, ?_, ?_⟩
    · refine leNat_natLE_of_lt ?_
      norm_num
      omega
    · simp only [frameBytes, List.length_append, List.length_cons,
        List.length_nil, natLE_length]
      omega
  · induction fs with
    | nil =>
      intro fuel _
      show NetworkAL.readFrames fuel [] = some []
      cases fuel <;> rfl
    | cons f rest ih =>
      intro fuel hfuel
      have hfuel' : rest.length + 1 ≤ fuel := by simpa using hfuel
      obtain ⟨u, rfl⟩ : ∃ u, fuel = u + 1 := ⟨fuel - 1, by omega⟩
      have hdg : datagramOf (f :: rest) =
          frameBytes f ++ datagramOf rest := by
        simp [datagramOf]
      rw [hdg, readFrames_cons u f (datagramOf rest)
        (hv f (List.mem_cons_self f rest))]
      rw [ih (fun g hg => hv g (List.mem_cons_of_mem f hg)) u (by omega)]
      rfl

/-- C6, witness: a two-frame datagram — a 2-byte DATA ping and an empty
DATA_WITH_ACK frame — is parsed back into exactly those frames. -/
theorem C6_witness :
    (∀ f ∈ ([⟨2, 0, 5, [9, 9]⟩, ⟨4, 11, 1, []⟩] : List NetworkAL.Frame),
      frameValid f) ∧
      NetworkAL.readFrames 2
          (datagramOf [⟨2, 0, 5, [9, 9]⟩, ⟨4, 11, 1, []⟩]) =
        some [⟨2, 0, 5, [9, 9]⟩, ⟨4, 11, 1, []⟩] := by
  have hv : ∀ f ∈ ([⟨2, 0, 5, [9, 9]⟩, ⟨4, 11, 1, []⟩] :
      List NetworkAL.Frame), frameValid f := by
    simp only [frameValid]
    decide
  exact ⟨hv, (C6_frame_roundtrip _ hv).2.2 2 (by decide)⟩

/-! ## C7 : state store -/

theorem assocGet_assocSet {κ α : Type} [DecidableEq κ]
    (m : List (κ × α)) (k : κ) (v : α) :
    Commands.assocGet (Commands.assocSet m k v) k = some v := by
  induction m with
  | nil => simp [Commands.assocSet, Commands.assocGet]
  | cons h t ih =>
    obtain ⟨k0, v0⟩ := h
    by_cases hk : k0 = k
    · simp [Commands.assocSet, Commands.assocGet, hk]
    · simp [Commands.assocSet, Commands.assocGet, hk, ih]

theorem setSlot_get {κ α : Type} (st : DeviceM.Store κ α)
    (pr cl cmd : String) (s : DeviceM.Slot κ α) :
    DeviceM.setSlot st pr cl cmd s pr cl cmd = some s := by
  simp [DeviceM.setSlot]

theorem putListN_from_list {κ α : Type} (vs : List α) :
    ∀ (st : DeviceM.Store κ α) (pr cl cmd : String) (l : List α),
      st pr cl cmd = some (.list l) →
      ∃ st2, putListN st pr cl cmd vs = .ok st2 ∧
        st2 pr cl cmd = some (.list (l ++ vs)) := by
  induction vs with
  | nil =>
    intro st pr cl cmd l h
    exact ⟨st, rfl, by simpa using h⟩
  | cons v rest ih =>
    intro st pr cl cmd l h
    have hstep : DeviceM.put_list st pr cl cmd v =
        .ok (DeviceM.setSlot st pr cl cmd (.list (l ++ [v]))) := by
      simp [DeviceM.put_list, h, DeviceM.deepcopy]
    obtain ⟨st2, h2, h3⟩ := ih (DeviceM.setSlot st pr cl cmd
      (.list (l ++ [v]))) pr cl cmd (l ++ [v]) (setSlot_get _ _ _ _ _)
    refine ⟨st2, ?_, ?_⟩
    · simp only [putListN, hstep]
      exact h2
    · simpa using h3

/-- C7: after `put(p,c,m,v)`, `get_value "p.c.m"` returns the (deep-copied,
here value-identical) `v` as a single slot; `n` successive `put_list`
calls on a fresh slot leave a list of exactly those `n` argument
dictionaries in insertion order; `put_map` (on a fresh or map slot)
stores `v` retrievable under key `k`; and `get_value` of a never-stored
name is `none`. -/
theorem C7_state_store {κ α : Type} [DecidableEq κ]
    (st : DeviceM.Store κ α) (pr cl cmd name : String) (v : α)
    (vs : List α) (k : κ) (m0 : List (κ × α))
    (hname : splitDots name = [pr, cl, cmd]) :
    (DeviceM.get_value (DeviceM.put st pr cl cmd v) name =
      some (.single v)) ∧
    (st pr cl cmd = none → vs ≠ [] →
      ∃ st2, putListN st pr cl cmd vs = .ok st2 ∧
        DeviceM.get_value st2 name = some (.list vs)) ∧
    (st pr cl cmd = none →
      ∃ st3 mp, DeviceM.put_map st pr cl cmd v k = .ok st3 ∧
        DeviceM.get_value st3 name = some (.map mp) ∧
        Commands.assocGet mp k = some v) ∧
    (st pr cl cmd = some (.map m0) →
      ∃ st4 mp, DeviceM.put_map st pr cl cmd v k = .ok st4 ∧
        DeviceM.get_value st4 name = some (.map mp) ∧
        Commands.assocGet mp k = some v) ∧
    (∀ nm, DeviceM.get_value (DeviceM.emptyStore κ α) nm = none) := by
  refine ⟨?_, ?_, ?_, ?_, ?_⟩
  · simp [DeviceM.get_value, hname, DeviceM.put, DeviceM.deepcopy,
      setSlot_get]
  · intro hnone hne
    obtain ⟨v0, rest, rfl⟩ : ∃ v0 rest, vs = v0 :: rest := by
      cases vs with
      | nil => exact absurd rfl hne
      | cons a b => exact ⟨a, b, rfl⟩
    have hstep : DeviceM.put_list st pr cl cmd v0 =
        .ok (DeviceM.setSlot st pr cl cmd (.list [v0])) := by
      simp [DeviceM.put_list, hnone, DeviceM.deepcopy]
    obtain ⟨st2, h2, h3⟩ := putListN_from_list rest
      (DeviceM.setSlot st pr cl cmd (.list [v0])) pr cl cmd [v0]
      (setSlot_get _ _ _ _ _)
    refine ⟨st2, ?_, ?_⟩
    · simp only [putListN, hstep]
      exact h2
    · simp [DeviceM.get_value, hname, h3, DeviceM.deepcopy]
  · intro hnone
    refine ⟨DeviceM.setSlot st pr cl cmd (.map [(k, v)]), [(k, v)], ?_, ?_, ?_⟩
    · simp [DeviceM.put_map, hnone, DeviceM.deepcopy]
    · simp [DeviceM.get_value, hname, setSlot_get, DeviceM.deepcopy]
    · simp [Commands.assocGet]
  · intro hmap
    refine ⟨DeviceM.setSlot st pr cl cmd
      (.map (Commands.assocSet m0 k v)), Commands.assocSet m0 k v,
      ?_, ?_, ?_⟩
    · simp [DeviceM.put_map, hmap, DeviceM.deepcopy]
    · simp [DeviceM.get_value, hname, setSlot_get, DeviceM.deepcopy]
    · exact assocGet_assocSet m0 k v
  · intro nm
    rcases hsp : splitDots nm with _ | ⟨a, _ | ⟨b, _ | ⟨c, _ | ⟨d, t⟩⟩⟩⟩ <;>
      simp [DeviceM.get_value, hsp, DeviceM.emptyStore]

/-- C7, witness: the store theorem at the empty store with name "p.c.m",
two list insertions and a map insertion under key 3. -/
theorem C7_witness :
    splitDots "p.c.m" = ["p", "c", "m"] ∧
      (∃ st2, putListN (DeviceM.emptyStore Nat Nat) "p" "c" "m" [4, 5] =
          .ok st2 ∧
        DeviceM.get_value st2 "p.c.m" = some (.list [4, 5])) ∧
      DeviceM.get_value (DeviceM.emptyStore Nat Nat) "x.y.z" = none := by
  have h := C7_state_store (DeviceM.emptyStore Nat Nat) "p" "c" "m"
    "p.c.m" 0 [4, 5] 3 [] (by decide)
  exact ⟨by decide, h.2.1 rfl (by decide), h.2.2.2.2 "x.y.z"⟩

/-! ## C3 : decode errors on the inbound command path -/

/-- C3: contrary to the claim, a payload that fails to DECODE (header
shorter than 4 bytes, or a string argument with no NUL byte) makes
`unpack_command` raise `CommandError`, which `Device.data_received` does
not catch (its only try block guards dictionary accesses after a
successful unpack) and which the transport read loop does not catch
either (its try block guards only `recvfrom`): the exception escapes the
frame handler and kills the read-loop thread.  Both failing evaluations
below end in the uncaught error, with the state store untouched. -/
theorem C3_decode_error_escapes :
    (DeviceM.deviceDataReceived ⟨[], []⟩ [127]
        (DeviceM.emptyStore Commands.Val DeviceM.Args) 127
        [4, 0, 0]).toOption = none ∧
      (DeviceM.deviceDataReceived
          ⟨[⟨"pr", 1, [⟨"cl", 2, [⟨"cm", 3,
            [("s", Commands.ArgType.string)], Commands.ListKind.NONE,
            Commands.BufferKind.ACK, 0⟩]⟩]⟩], []⟩
          [127] (DeviceM.emptyStore Commands.Val DeviceM.Args) 127
          [1, 2, 3, 0, 65, 66]).toOption = none :=
  ⟨rfl, rfl⟩

/-! ## C10 : Device.send_data error paths -/

/-- C10: for a three-part command name, `Device.send_data` catches the
codec's `CommandError` and returns ERROR without any network send, and
likewise returns ERROR without sending when the schema's recommended
buffer kind maps to an unconfigured buffer id `-1`. -/
theorem C10_send_command_errors (ctx : Commands.ArCtx)
    (cfg : DeviceM.DeviceCfg) (name pr cl cm : String)
    (args : List Commands.Val) (netResult : Network.NetStatus)
    (hsplit : splitDots name = [pr, cl, cm]) :
    (∀ msg, Commands.pack_command ctx pr cl cm args =
        .error (.commandError msg) →
      DeviceM.deviceSendData ctx cfg name args netResult =
        .ok (Network.NetStatus.ERROR, none)) ∧
      (∀ bytes tp, Commands.pack_command ctx pr cl cm args =
          .ok (bytes, Commands.BufferKind.NON_ACK, tp) →
        cfg.nackBuffer = -1 →
        DeviceM.deviceSendData ctx cfg name args netResult =
          .ok (Network.NetStatus.ERROR, none)) ∧
      (∀ bytes tp, Commands.pack_command ctx pr cl cm args =
          .ok (bytes, Commands.BufferKind.ACK, tp) →
        cfg.ackBuffer = -1 →
        DeviceM.deviceSendData ctx cfg name args netResult =
          .ok (Network.NetStatus.ERROR, none)) ∧
      (∀ bytes tp, Commands.pack_command ctx pr cl cm args =
          .ok (bytes, Commands.BufferKind.HIGH_PRIORITY, tp) →
        cfg.urgBuffer = -1 →
        DeviceM.deviceSendData ctx cfg name args netResult =
          .ok (Network.NetStatus.ERROR, none)) := by
  refine ⟨?_, ?_, ?_, ?_⟩
  · intro msg hpack
    simp [DeviceM.deviceSendData, hsplit, hpack]
  · intro bytes tp hpack hbuf
    simp [DeviceM.deviceSendData, hsplit, hpack, hbuf]
  · intro bytes tp hpack hbuf
    simp [DeviceM.deviceSendData, hsplit, hpack, hbuf]
  · intro bytes tp hpack hbuf
    simp [DeviceM.deviceSendData, hsplit, hpack, hbuf]

/-- C10, witness: an unknown project is a codec `CommandError`, returned
as ERROR with no send; a HIGH_PRIORITY command on a device configured without
an urgent buffer is likewise ERROR with no send. -/
theorem C10_witness :
    splitDots "a.b.c" = ["a", "b", "c"] ∧
      DeviceM.deviceSendData ⟨[], []⟩ ⟨11, 10, -1⟩ "a.b.c" []
        Network.NetStatus.OK = .ok (Network.NetStatus.ERROR, none) ∧
      splitDots "pr.cl.cm" = ["pr", "cl", "cm"] ∧
      DeviceM.deviceSendData
        ⟨[⟨"pr", 1, [⟨"cl", 2, [⟨"cm", 3, [], Commands.ListKind.NONE,
          Commands.BufferKind.HIGH_PRIORITY, 0⟩]⟩]⟩], []⟩
        ⟨11, 10, -1⟩ "pr.cl.cm" [] Network.NetStatus.OK =
        .ok (Network.NetStatus.ERROR, none) := by
  have h1 := C10_send_command_errors ⟨[], []⟩ ⟨11, 10, -1⟩ "a.b.c"
    "a" "b" "c" [] Network.NetStatus.OK (by decide)
  have h2 := C10_send_command_errors
    ⟨[⟨"pr", 1, [⟨"cl", 2, [⟨"cm", 3, [], Commands.ListKind.NONE,
      Commands.BufferKind.HIGH_PRIORITY, 0⟩]⟩]⟩], []⟩
    ⟨11, 10, -1⟩ "pr.cl.cm" "pr" "cl" "cm" [] Network.NetStatus.OK
    (by decide)
  refine ⟨by decide, h1.1 "Unknown project a" rfl, by decide, ?_⟩
  exact h2.2.2.2 [1, 2, 3, 0] 0 rfl rfl

/-! ## C2 : command codec round trip — argument level -/

theorem natLE_parts (w n : Nat) (rest : List Nat) :
    (natLE w n ++ rest).take w = natLE w n ∧
      (natLE w n ++ rest).drop w = rest ∧
      w ≤ (natLE w n ++ rest).length :=
  ⟨List.take_left' (natLE_length w n), List.drop_left' (natLE_length w n),
    by simp [natLE_length]⟩

theorem findNul_append (s : List Nat) (h : ¬ 0 ∈ s) (r : List Nat) :
    Commands.findNul (s ++ 0 :: r) = some s.length := by
  induction s with
  | nil => simp [Commands.findNul]
  | cons b t ih =>
    have hb : b ≠ 0 := by
      intro hb0
      exact h (by simp [hb0])
    have ht : ¬ 0 ∈ t := fun hm => h (by simp [hm])
    simp [Commands.findNul, hb, ih ht]

theorem unpackArg_packVal (t : Commands.ArgType) (v : Commands.Val)
    (b rest : List Nat) (hp : Commands.packVal t v = some b)
    (hn : nulFree v) :
    Commands.unpackArg t (b ++ rest) = some (v, rest) := by
  cases t <;> cases v <;> simp only [Commands.packVal] at hp <;>
    try exact Option.noConfusion hp
  case u8.u8 n =>
    split at hp
    next hcond =>
      injection hp with hb
      subst hb
      obtain ⟨ht, hd, hl⟩ := natLE_parts 1 n rest
      have hlt : n < 256 ^ 1 := by
        norm_num at hcond ⊢
        omega
      simp only [Commands.unpackArg, if_pos hl, ht, hd,
        leNat_natLE_of_lt hlt]
    next => exact Option.noConfusion hp
  case u16.u16 n =>
    split at hp
    next hcond =>
      injection hp with hb
      subst hb
      obtain ⟨ht, hd, hl⟩ := natLE_parts 2 n rest
      have hlt : n < 256 ^ 2 := by
        norm_num at hcond ⊢
        omega
      simp only [Commands.unpackArg, if_pos hl, ht, hd,
        leNat_natLE_of_lt hlt]
    next => exact Option.noConfusion hp
  case u32.u32 n =>
    split at hp
    next hcond =>
      injection hp with hb
      subst hb
      obtain ⟨ht, hd, hl⟩ := natLE_parts 4 n rest
      have hlt : n < 256 ^ 4 := by
        norm_num at hcond ⊢
        omega
      simp only [Commands.unpackArg, if_pos hl, ht, hd,
        leNat_natLE_of_lt hlt]
    next => exact Option.noConfusion hp
  case u64.u64 n =>
    split at hp
    next hcond =>
      injection hp with hb
      subst hb
      obtain ⟨ht, hd, hl⟩ := natLE_parts 8 n rest
      have hlt : n < 256 ^ 8 := by
        norm_num at hcond ⊢
        omega
      simp only [Commands.unpackArg, if_pos hl, ht, hd,
        leNat_natLE_of_lt hlt]
    next => exact Option.noConfusion hp
  case float.f32 n =>
    split at hp
    next hcond =>
      injection hp with hb
      subst hb
      obtain ⟨ht, hd, hl⟩ := natLE_parts 4 n rest
      have hlt : n < 256 ^ 4 := by
        norm_num at hcond ⊢
        omega
      simp only [Commands.unpackArg, if_pos hl, ht, hd,
        leNat_natLE_of_lt hlt]
    next => exact Option.noConfusion hp
  case double.f64 n =>
    split at hp
    next hcond =>
      injection hp with hb
      subst hb
      obtain ⟨ht, hd, hl⟩ := natLE_parts 8 n rest
      have hlt : n < 256 ^ 8 := by
        norm_num at hcond ⊢
        omega
      simp only [Commands.unpackArg, if_pos hl, ht, hd,
        leNat_natLE_of_lt hlt]
    next => exact Option.noConfusion hp
  case i8.i8 i =>
    split at hp
    next hcond =>
      injection hp with hb
      subst hb
      have hm : (i % (2 ^ 8)).toNat < 256 ^ 1 := by
        norm_num at hcond ⊢
        omega
      obtain ⟨ht, hd, hl⟩ := natLE_parts 1 ((i % (2 ^ 8)).toNat) rest
      have hval : Commands.sdec 1 (natLE 1 ((i % (2 ^ 8)).toNat)) = i := by
        simp only [Commands.sdec, leNat_natLE_of_lt hm]
        norm_num at hcond ⊢
        split_ifs <;> omega
      simp only [Commands.unpackArg, if_pos hl, ht, hd, hval]
    next => exact Option.noConfusion hp
  case i16.i16 i =>
    split at hp
    next hcond =>
      injection hp with hb
      subst hb
      have hm : (i % (2 ^ 16)).toNat < 256 ^ 2 := by
        norm_num at hcond ⊢
        omega
      obtain ⟨ht, hd, hl⟩ := natLE_parts 2 ((i % (2 ^ 16)).toNat) rest
      have hval : Commands.sdec 2 (natLE 2 ((i % (2 ^ 16)).toNat)) = i := by
        simp only [Commands.sdec, leNat_natLE_of_lt hm]
        norm_num at hcond ⊢
        split_ifs <;> omega
      simp only [Commands.unpackArg, if_pos hl, ht, hd, hval]
    next => exact Option.noConfusion hp
  case i32.i32 i =>
    split at hp
    next hcond =>
      injection hp with hb
      subst hb
      have hm : (i % (2 ^ 32)).toNat < 256 ^ 4 := by
        norm_num at hcond ⊢
        omega
      obtain ⟨ht, hd, hl⟩ := natLE_parts 4 ((i % (2 ^ 32)).toNat) rest
      have hval : Commands.sdec 4 (natLE 4 ((i % (2 ^ 32)).toNat)) = i := by
        simp only [Commands.sdec, leNat_natLE_of_lt hm]
        norm_num at hcond ⊢
        split_ifs <;> omega
      simp only [Commands.unpackArg, if_pos hl, ht, hd, hval]
    next => exact Option.noConfusion hp
  case i64.i64 i =>
    split at hp
    next hcond =>
      injection hp with hb
      subst hb
      have hm : (i % (2 ^ 64)).toNat < 256 ^ 8 := by
        norm_num at hcond ⊢
        omega
      obtain ⟨ht, hd, hl⟩ := natLE_parts 8 ((i % (2 ^ 64)).toNat) rest
      have hval : Commands.sdec 8 (natLE 8 ((i % (2 ^ 64)).toNat)) = i := by
        simp only [Commands.sdec, leNat_natLE_of_lt hm]
        norm_num at hcond ⊢
        split_ifs <;> omega
      simp only [Commands.unpackArg, if_pos hl, ht, hd, hval]
    next => exact Option.noConfusion hp
  case string.str s =>
    injection hp with hb
    subst hb
    have hn' : ¬ 0 ∈ s := hn
    have hassoc : (s ++ [0]) ++ rest = s ++ 0 :: rest := by
      simp
    have htake : (s ++ 0 :: rest).take s.length = s :=
      List.take_left' rfl
    have hdrop : (s ++ 0 :: rest).drop (s.length + 1) = rest := by
      have : (s ++ [0]).length = s.length + 1 := by simp
      rw [← hassoc]
      exact List.drop_left' this
    simp only [Commands.unpackArg, hassoc, findNul_append s hn' rest,
      htake, hdrop]

theorem unpackArgs_packArgs (ts : List Commands.ArgType) :
    ∀ (vs : List Commands.Val) (bytes rest : List Nat),
      Commands.packArgs ts vs = some bytes →
      (∀ v ∈ vs, nulFree v) →
      Commands.unpackArgs ts (bytes ++ rest) = some (vs, rest) := by
  induction ts with
  | nil =>
    intro vs bytes rest hp hn
    cases vs with
    | nil =>
      injection hp with hb
      subst hb
      rfl
    | cons v vt => exact Option.noConfusion hp
  | cons t tt ih =>
    intro vs bytes rest hp hn
    cases vs with
    | nil => exact Option.noConfusion hp
    | cons v vt =>
      simp only [Commands.packArgs] at hp
      cases hv : Commands.packVal t v with
      | none => rw [hv] at hp; exact Option.noConfusion hp
      | some b =>
        rw [hv] at hp
        cases hvs : Commands.packArgs tt vt with
        | none => rw [hvs] at hp; exact Option.noConfusion hp
        | some bs =>
          rw [hvs] at hp
          injection hp with hb
          subst hb
          have h1 := unpackArg_packVal t v b (bs ++ rest) hv
            (hn v (List.mem_cons_self v vt))
          have h2 := ih vt bs rest hvs
            (fun w hw => hn w (List.mem_cons_of_mem v hw))
          simp only [Commands.unpackArgs, List.append_assoc, h1, h2]

theorem structUnpack_packArgs (ts : List Commands.ArgType)
    (vs : List Commands.Val) (bytes : List Nat)
    (hp : Commands.packArgs ts vs = some bytes)
    (hn : ∀ v ∈ vs, nulFree v) :
    Commands.structUnpack ts bytes = some vs := by
  have h := unpackArgs_packArgs ts vs bytes [] hp hn
  rw [List.append_nil] at h
  simp [Commands.structUnpack, h]

/-! ## C2 : lookup and dictionary lemmas -/

theorem find?_map_key {α β : Type} [DecidableEq β] (f : α → β) :
    ∀ (l : List α) (x : α), x ∈ l → (l.map f).Nodup →
      l.find? (fun a => f a = f x) = some x := by
  intro l
  induction l with
  | nil =>
    intro x hx
    cases hx
  | cons a t ih =>
    intro x hx hnd
    rw [List.map_cons] at hnd
    have hnd' : f a ∉ t.map f ∧ (t.map f).Nodup := List.nodup_cons.mp hnd
    rcases List.mem_cons.mp hx with rfl | hxt
    · simp [List.find?]
    · have hne : f a ≠ f x := fun he =>
        hnd'.1 (he ▸ List.mem_map_of_mem f hxt)
      simp [List.find?, hne, ih x hxt hnd'.2]

theorem packArgs_length (ts : List Commands.ArgType) :
    ∀ (vs : List Commands.Val) (bytes : List Nat),
      Commands.packArgs ts vs = some bytes → vs.length = ts.length := by
  induction ts with
  | nil =>
    intro vs bytes hp
    cases vs with
    | nil => rfl
    | cons v vt => exact Option.noConfusion hp
  | cons t tt ih =>
    intro vs bytes hp
    cases vs with
    | nil => exact Option.noConfusion hp
    | cons v vt =>
      simp only [Commands.packArgs] at hp
      cases hv : Commands.packVal t v with
      | none => rw [hv] at hp; exact Option.noConfusion hp
      | some b =>
        rw [hv] at hp
        cases hvs : Commands.packArgs tt vt with
        | none => rw [hvs] at hp; exact Option.noConfusion hp
        | some bs => simp [ih vt bs hvs]

theorem assocSet_not_mem {κ α : Type} [DecidableEq κ] :
    ∀ (d : List (κ × α)) (k : κ) (v : α), ¬ k ∈ d.map Prod.fst →
      Commands.assocSet d k v = d ++ [(k, v)] := by
  intro d
  induction d with
  | nil =>
    intro k v _
    rfl
  | cons p t ih =>
    intro k v hk
    obtain ⟨k0, v0⟩ := p
    have h1 : k0 ≠ k := fun he => hk (by simp [he])
    have h2 : ¬ k ∈ t.map Prod.fst := fun hm => hk (by simp [hm])
    simp [Commands.assocSet, h1, ih k v h2]

theorem foldl_assocSet {κ α : Type} [DecidableEq κ] :
    ∀ (l : List (κ × α)) (d : List (κ × α)),
      (∀ p ∈ l, ¬ p.1 ∈ d.map Prod.fst) → (l.map Prod.fst).Nodup →
      l.foldl (fun d nv => Commands.assocSet d nv.1 nv.2) d = d ++ l := by
  intro l
  induction l with
  | nil =>
    intro d _ _
    simp
  | cons p t ih =>
    intro d hdisj hnd
    obtain ⟨k, v⟩ := p
    have hk : ¬ k ∈ d.map Prod.fst := hdisj (k, v) (List.mem_cons_self _ _)
    rw [List.map_cons] at hnd
    have hnd' : k ∉ t.map Prod.fst ∧ (t.map Prod.fst).Nodup :=
      List.nodup_cons.mp hnd
    have hstep : Commands.assocSet d k v = d ++ [(k, v)] :=
      assocSet_not_mem d k v hk
    have hdisj' : ∀ q ∈ t, ¬ q.1 ∈ (d ++ [(k, v)]).map Prod.fst := by
      intro q hq hmem
      simp only [List.map_append, List.mem_append] at hmem
      rcases hmem with hmem | hmem
      · exact hdisj q (List.mem_cons_of_mem _ hq) hmem
      · simp only [List.map_cons, List.map_nil, List.mem_singleton] at hmem
        exact hnd'.1 (hmem ▸ List.mem_map_of_mem Prod.fst hq)
    calc (t.foldl (fun d nv => Commands.assocSet d nv.1 nv.2)
            (Commands.assocSet d k v))
        = t.foldl (fun d nv => Commands.assocSet d nv.1 nv.2)
            (d ++ [(k, v)]) := by rw [hstep]
      _ = (d ++ [(k, v)]) ++ t := ih (d ++ [(k, v)]) hdisj' hnd'.2
      _ = d ++ (k, v) :: t := by simp

theorem assocGet_zip {κ α : Type} [DecidableEq κ] :
    ∀ (names : List κ) (vs : List α), names.length = vs.length →
      names.Nodup → ∀ (i : Nat) (hi : i < names.length),
      Commands.assocGet (names.zip vs) (names.get ⟨i, hi⟩) = vs.get? i := by
  intro names
  induction names with
  | nil =>
    intro vs _ _ i hi
    exact absurd hi (by simp)
  | cons n nt ih =>
    intro vs hlen hnd i hi
    cases vs with
    | nil => simp at hlen
    | cons v vt =>
      have hnd' := List.nodup_cons.mp hnd
      cases i with
      | zero => simp [Commands.assocGet]
      | succ j =>
        have hj : j < nt.length := by
          simp at hi
          omega
        have hne : n ≠ nt.get ⟨j, hj⟩ := fun he =>
          hnd'.1 (he ▸ List.get_mem nt j hj)
        have hrec := ih vt (by simpa using hlen) hnd'.2 j hj
        show Commands.assocGet ((n, v) :: nt.zip vt)
            ((n :: nt).get ⟨j + 1, hi⟩) = (v :: vt).get? (j + 1)
        simp only [List.get_cons_succ, List.get?_cons_succ]
        simp only [Commands.assocGet, if_neg hne]
        exact hrec

/-! ## C2 : record-level and full round trip -/

theorem buildRecord_roundtrip (pn cn : String) (cmd : Commands.ArCmd)
    (args : List Commands.Val) (rest : List Nat)
    (hnd : (cmd.args.map (fun x => x.1)).Nodup)
    (hnul : ∀ v ∈ args, nulFree v)
    (hcase : cmd.args = [] ∨
      Commands.packArgs (cmd.args.map (fun x => x.2)) args = some rest) :
    ∃ rec, Commands.buildRecord pn cn cmd rest = .ok (rec, true) ∧
      rec.proj = pn ∧ rec.cls = cn ∧ rec.cmd = cmd.name ∧
      rec.listtype = cmd.listType ∧
      (∀ (i : Nat) (hi : i < cmd.args.length),
        Commands.assocGet rec.args (cmd.args.get ⟨i, hi⟩).1 =
          args.get? i) := by
  rcases hq : cmd.args with _ | ⟨a, l⟩
  · have hbr : Commands.buildRecord pn cn cmd rest =
        .ok ({ name := pn ++ "." ++ cn ++ "." ++ cmd.name, proj := pn,
               cls := cn, cmd := cmd.name, listtype := cmd.listType,
               args := [], arg0 := .str [] }, true) := by
      simp [Commands.buildRecord, hq]
    refine ⟨_, hbr, rfl, rfl, rfl, rfl, ?_⟩
    intro i hi
    exact absurd hi (by simp)
  · rw [hq] at hcase hnd
    have hpa : Commands.packArgs ((a :: l).map (fun x => x.2)) args =
        some rest := by
      rcases hcase with h | h
      · exact absurd h (by simp)
      · exact h
    have hlen : args.length = (a :: l).length := by
      have := packArgs_length ((a :: l).map (fun x => x.2)) args rest hpa
      simpa using this
    have hsu : Commands.structUnpack ((a :: l).map (fun x => x.2)) rest =
        some args :=
      structUnpack_packArgs _ args rest hpa hnul
    have hkeys : ((((a :: l).map (fun x => x.1)).zip args).map Prod.fst) =
        (a :: l).map (fun x => x.1) :=
      List.map_fst_zip _ _ (by simp [hlen])
    have hfold : ((((a :: l).map (fun x => x.1)).zip args).foldl
        (fun d nv => Commands.assocSet d nv.1 nv.2) []) =
        ((a :: l).map (fun x => x.1)).zip args := by
      have := foldl_assocSet ((((a :: l).map (fun x => x.1)).zip args)) []
        (by simp) (by rw [hkeys]; exact hnd)
      simpa using this
    have hbr : Commands.buildRecord pn cn cmd rest =
        .ok ({ name := pn ++ "." ++ cn ++ "." ++ cmd.name, proj := pn,
               cls := cn, cmd := cmd.name, listtype := cmd.listType,
               args := ((a :: l).map (fun x => x.1)).zip args,
               arg0 := args.headD (.str []) }, true) := by
      simp only [Commands.buildRecord, hq, List.isEmpty_cons,
        Bool.false_eq_true, if_false, hsu, hfold]
    refine ⟨_, hbr, rfl, rfl, rfl, rfl, ?_⟩
    intro i hi
    have hi2 : i < ((a :: l).map (fun x => x.1)).length := by
      simpa using hi
    have hlen2 : ((a :: l).map (fun x => x.1)).length = args.length := by
      simp [hlen]
    have hz := assocGet_zip ((a :: l).map (fun x => x.1)) args hlen2 hnd i hi2
    have hkey : ((a :: l).map (fun x => x.1)).get ⟨i, hi2⟩ =
        ((a :: l).get ⟨i, hi⟩).1 := List.get_map _
    rw [hkey] at hz
    exact hz

/-- C2, amended: for every schema-valid tuple accepted by `pack_command`
(argument values matching the declared wire kinds, strings free of
embedded NUL bytes) over a well-formed catalogue, `unpack_command` of the
produced bytes returns `known = true` and a record whose project and
command names equal the input names, whose class name equals the input
class name when the project was resolved among classed projects and is
the empty string when it was resolved as a flat feature (features ignore
the supplied class name entirely — see the counterexample), and whose
args dictionary maps each declared argument name to the corresponding
input value. -/
theorem C2_roundtrip (ctx : Commands.ArCtx) (sProj sCls sCmd : String)
    (args : List Commands.Val) (bytes : List Nat)
    (bk : Commands.BufferKind) (tp : Nat)
    (hwf : ctxWF ctx)
    (hnul : ∀ v ∈ args, nulFree v)
    (hpack : Commands.pack_command ctx sProj sCls sCmd args =
      .ok (bytes, bk, tp)) :
    ∃ pid cid cmd rec,
      Commands.resolveCmd ctx sProj sCls sCmd = .ok (pid, cid, cmd) ∧
      Commands.unpack_command ctx bytes = .ok (rec, true) ∧
      rec.proj = sProj ∧
      rec.cmd = sCmd ∧
      (ctx.projects.find? (fun p => p.name = sProj) ≠ none →
        rec.cls = sCls) ∧
      (ctx.projects.find? (fun p => p.name = sProj) = none →
        rec.cls = "") ∧
      rec.listtype = cmd.listType ∧
      (∀ (i : Nat) (hi : i < cmd.args.length),
        Commands.assocGet rec.args (cmd.args.get ⟨i, hi⟩).1 =
          args.get? i) := by
  obtain ⟨hpn, hfn, hdisj, hpwf, hfwf⟩ := hwf
  cases hproj : ctx.projects.find? (fun p => p.name = sProj) with
  | some proj =>
    cases hcls : proj.classes.find? (fun c => c.name = sCls) with
    | none =>
      simp only [Commands.pack_command, Commands.resolveCmd, hproj,
        hcls] at hpack
      exact Except.noConfusion hpack
    | some cls =>
      cases hcmd : cls.cmds.find? (fun c => c.name = sCmd) with
      | none =>
        simp only [Commands.pack_command, Commands.resolveCmd, hproj,
          hcls, hcmd] at hpack
        exact Except.noConfusion hpack
      | some cmd0 =>
        have hres : Commands.resolveCmd ctx sProj sCls sCmd =
            .ok (proj.projectId, cls.classId, cmd0) := by
          simp only [Commands.resolveCmd, hproj, hcls, hcmd]
        have hpm : proj ∈ ctx.projects := List.mem_of_find?_eq_some hproj
        have hcm : cls ∈ proj.classes := List.mem_of_find?_eq_some hcls
        have hmem : cmd0 ∈ cls.cmds := List.mem_of_find?_eq_some hcmd
        have hpname : proj.name = sProj := by
          simpa using List.find?_some hproj
        have hcname : cls.name = sCls := by
          simpa using List.find?_some hcls
        have hmname : cmd0.name = sCmd := by
          simpa using List.find?_some hcmd
        simp only [Commands.pack_command, hres] at hpack
        split at hpack
        next hrange =>
          obtain ⟨hr1, hr2, hr3⟩ := hrange
          have hf1 : ctx.projects.find?
              (fun p => p.projectId = proj.projectId) = some proj :=
            find?_map_key (fun p => p.projectId) ctx.projects proj hpm hpn
          have hf2 : proj.classes.find?
              (fun c => c.classId = cls.classId) = some cls :=
            find?_map_key (fun c => c.classId) proj.classes cls hcm
              (hpwf proj hpm).1
          have hf3 : cls.cmds.find?
              (fun c => c.cmdId = cmd0.cmdId) = some cmd0 :=
            find?_map_key (fun c => c.cmdId) cls.cmds cmd0 hmem
              ((hpwf proj hpm).2 cls hcm).1
          have hndargs : (cmd0.args.map (fun x => x.1)).Nodup :=
            ((hpwf proj hpm).2 cls hcm).2 cmd0 hmem
          have hlt2 : cmd0.cmdId < 256 ^ 2 := by
            norm_num at hr3 ⊢
            omega
          have hicmd : leNat [cmd0.cmdId % 256, cmd0.cmdId / 256 % 256] =
              cmd0.cmdId := by
            have hnle : natLE 2 cmd0.cmdId =
                [cmd0.cmdId % 256, cmd0.cmdId / 256 % 256] := by
              simp [natLE]
            rw [← hnle, leNat_natLE_of_lt hlt2]
          rcases hq : cmd0.args with _ | ⟨a0, l0⟩
          · rw [hq] at hpack
            simp only [List.isEmpty_nil, if_true] at hpack
            injection hpack with h
            simp only [Prod.mk.injEq] at h
            obtain ⟨hbytes, hbk, htp⟩ := h
            subst hbytes
            have hform : ([proj.projectId, cls.classId] ++
                natLE 2 cmd0.cmdId) = proj.projectId :: cls.classId ::
                cmd0.cmdId % 256 :: cmd0.cmdId / 256 % 256 ::
                ([] : List Nat) := by
              simp [natLE]
            have hunp : Commands.unpack_command ctx
                ([proj.projectId, cls.classId] ++ natLE 2 cmd0.cmdId) =
                Commands.buildRecord proj.name cls.name cmd0 [] := by
              rw [hform]
              simp only [Commands.unpack_command, hicmd, hf1, hf2, hf3]
            obtain ⟨rec, hbr, hrp, hrc, hrm, hrl, hra⟩ :=
              buildRecord_roundtrip proj.name cls.name cmd0 args []
                hndargs hnul (Or.inl hq)
            refine ⟨proj.projectId, cls.classId, cmd0, rec, hres,
              ?_, ?_, ?_, ?_, ?_, ?_, ?_⟩
            · rw [hunp, hbr]
            · rw [hrp, hpname]
            · rw [hrm, hmname]
            · intro _
              rw [hrc, hcname]
            · intro hnone
              exact Option.noConfusion hnone
            · exact hrl
            · exact hra
          · rw [hq] at hpack
            simp only [List.isEmpty_cons, Bool.false_eq_true,
              if_false] at hpack
            cases hpa : Commands.packArgs
                ((a0 :: l0).map (fun x => x.2)) args with
            | none =>
              rw [hpa] at hpack
              exact Except.noConfusion hpack
            | some argbytes =>
              rw [hpa] at hpack
              injection hpack with h
              simp only [Prod.mk.injEq] at h
              obtain ⟨hbytes, hbk, htp⟩ := h
              subst hbytes
              have hform : (([proj.projectId, cls.classId] ++
                  natLE 2 cmd0.cmdId) ++ argbytes) =
                  proj.projectId :: cls.classId :: cmd0.cmdId % 256 ::
                  cmd0.cmdId / 256 % 256 :: argbytes := by
                simp [natLE]
              have hunp : Commands.unpack_command ctx
                  (([proj.projectId, cls.classId] ++
                    natLE 2 cmd0.cmdId) ++ argbytes) =
                  Commands.buildRecord proj.name cls.name cmd0
                    argbytes := by
                rw [hform]
                simp only [Commands.unpack_command, hicmd, hf1, hf2, hf3]
              obtain ⟨rec, hbr, hrp, hrc, hrm, hrl, hra⟩ :=
                buildRecord_roundtrip proj.name cls.name cmd0 args
                  argbytes hndargs hnul (Or.inr (by rw [hq]; exact hpa))
              refine ⟨proj.projectId, cls.classId, cmd0, rec, hres,
                ?_, ?_, ?_, ?_, ?_, ?_, ?_⟩
              · rw [hunp, hbr]
              · rw [hrp, hpname]
              · rw [hrm, hmname]
              · intro _
                rw [hrc, hcname]
              · intro hnone
                exact Option.noConfusion hnone
              · exact hrl
              · exact hra
        next => exact Except.noConfusion hpack
  | none =>
    cases hfeat : ctx.features.find? (fun f => f.name = sProj) with
    | none =>
      simp only [Commands.pack_command, Commands.resolveCmd, hproj,
        hfeat] at hpack
      exact Except.noConfusion hpack
    | some feat =>
      cases hcmd : feat.cmds.find? (fun c => c.name = sCmd) with
      | none =>
        simp only [Commands.pack_command, Commands.resolveCmd, hproj,
          hfeat, hcmd] at hpack
        exact Except.noConfusion hpack
      | some cmd0 =>
        have hres : Commands.resolveCmd ctx sProj sCls sCmd =
            .ok (feat.featureId, 0, cmd0) := by
          simp only [Commands.resolveCmd, hproj, hfeat, hcmd]
        have hfm : feat ∈ ctx.features := List.mem_of_find?_eq_some hfeat
        have hmem : cmd0 ∈ feat.cmds := List.mem_of_find?_eq_some hcmd
        have hfname : feat.name = sProj := by
          simpa using List.find?_some hfeat
        have hmname : cmd0.name = sCmd := by
          simpa using List.find?_some hcmd
        simp only [Commands.pack_command, hres] at hpack
        split at hpack
        next hrange =>
          obtain ⟨hr1, hr2, hr3⟩ := hrange
          have hf0 : ctx.projects.find?
              (fun p => p.projectId = feat.featureId) = none := by
            rw [List.find?_eq_none]
            intro p hp
            simp only [decide_eq_true_eq]
            exact fun h => hdisj feat hfm p hp h.symm
          have hf1 : ctx.features.find?
              (fun f => f.featureId = feat.featureId) = some feat :=
            find?_map_key (fun f => f.featureId) ctx.features feat hfm hfn
          have hf3 : feat.cmds.find?
              (fun c => c.cmdId = cmd0.cmdId) = some cmd0 :=
            find?_map_key (fun c => c.cmdId) feat.cmds cmd0 hmem
              (hfwf feat hfm).1
          have hndargs : (cmd0.args.map (fun x => x.1)).Nodup :=
            (hfwf feat hfm).2 cmd0 hmem
          have hlt2 : cmd0.cmdId < 256 ^ 2 := by
            norm_num at hr3 ⊢
            omega
          have hicmd : leNat [cmd0.cmdId % 256, cmd0.cmdId / 256 % 256] =
              cmd0.cmdId := by
            have hnle : natLE 2 cmd0.cmdId =
                [cmd0.cmdId % 256, cmd0.cmdId / 256 % 256] := by
              simp [natLE]
            rw [← hnle, leNat_natLE_of_lt hlt2]
          rcases hq : cmd0.args with _ | ⟨a0, l0⟩
          · rw [hq] at hpack
            simp only [List.isEmpty_nil, if_true] at hpack
            injection hpack with h
            simp only [Prod.mk.injEq] at h
            obtain ⟨hbytes, hbk, htp⟩ := h
            subst hbytes
            have hform : ([feat.featureId, 0] ++ natLE 2 cmd0.cmdId) =
                feat.featureId :: 0 :: cmd0.cmdId % 256 ::
                cmd0.cmdId / 256 % 256 :: ([] : List Nat) := by
              simp [natLE]
            have hunp : Commands.unpack_command ctx
                ([feat.featureId, 0] ++ natLE 2 cmd0.cmdId) =
                Commands.buildRecord feat.name "" cmd0 [] := by
              rw [hform]
              simp only [Commands.unpack_command, hicmd, hf0, hf1, hf3]
            obtain ⟨rec, hbr, hrp, hrc, hrm, hrl, hra⟩ :=
              buildRecord_roundtrip feat.name "" cmd0 args []
                hndargs hnul (Or.inl hq)
            refine ⟨feat.featureId, 0, cmd0, rec, hres,
              ?_, ?_, ?_, ?_, ?_, ?_, ?_⟩
            · rw [hunp, hbr]
            · rw [hrp, hfname]
            · rw [hrm, hmname]
            · intro hne
              exact absurd rfl hne
            · intro _
              exact hrc
            · exact hrl
            · exact hra
          · rw [hq] at hpack
            simp only [List.isEmpty_cons, Bool.false_eq_true,
              if_false] at hpack
            cases hpa : Commands.packArgs
                ((a0 :: l0).map (fun x => x.2)) args with
            | none =>
              rw [hpa] at hpack
              exact Except.noConfusion hpack
            | some argbytes =>
              rw [hpa] at hpack
              injection hpack with h
              simp only [Prod.mk.injEq] at h
              obtain ⟨hbytes, hbk, htp⟩ := h
              subst hbytes
              have hform : (([feat.featureId, 0] ++
                  natLE 2 cmd0.cmdId) ++ argbytes) =
                  feat.featureId :: 0 :: cmd0.cmdId % 256 ::
                  cmd0.cmdId / 256 % 256 :: argbytes := by
                simp [natLE]
              have hunp : Commands.unpack_command ctx
                  (([feat.featureId, 0] ++ natLE 2 cmd0.cmdId) ++
                    argbytes) =
                  Commands.buildRecord feat.name "" cmd0 argbytes := by
                rw [hform]
                simp only [Commands.unpack_command, hicmd, hf0, hf1, hf3]
              obtain ⟨rec, hbr, hrp, hrc, hrm, hrl, hra⟩ :=
                buildRecord_roundtrip feat.name "" cmd0 args argbytes
                  hndargs hnul (Or.inr (by rw [hq]; exact hpa))
              refine ⟨feat.featureId, 0, cmd0, rec, hres,
                ?_, ?_, ?_, ?_, ?_, ?_, ?_⟩
              · rw [hunp, hbr]
              · rw [hrp, hfname]
              · rw [hrm, hmname]
              · intro hne
                exact absurd rfl hne
              · intro _
                exact hrc
              · exact hrl
              · exact hra
        next => exact Except.noConfusion hpack

/-- C2, counterexample.  `pack_command` resolves "gen" as a FEATURE and
ignores the supplied class name entirely ("X" here), so the tuple
("gen", "X", "c", []) is accepted; decoding the produced bytes yields a
record whose class name is the empty string, not "X": the decoded names
do not all equal the input names. -/
theorem C2_counterexample :
    Commands.pack_command ctxFeat "gen" "X" "c" [] =
        .ok ([1, 0, 0, 0], .ACK, 0) ∧
      (Commands.unpack_command ctxFeat [1, 0, 0, 0]).toOption.map
          (fun r => (r.1.cls, r.2)) = some ("", true) ∧
      ("" : String) ≠ "X" := by
  refine ⟨rfl, rfl, by decide⟩

/-- C2, witness: the round-trip theorem at the concrete one-project
catalogue, with a `u8` and a string argument. -/
theorem C2_witness :
    Commands.pack_command ctxProj "pr" "cl" "cm"
        [.u8 7, .str [65]] = .ok ([1, 2, 3, 0, 7, 65, 0], .ACK, 0) ∧
      (Commands.unpack_command ctxProj [1, 2, 3, 0, 7, 65, 0]).toOption.map
          (fun r => (r.1.proj, r.1.cls, r.1.cmd,
            Commands.assocGet r.1.args "x",
            Commands.assocGet r.1.args "s", r.2)) =
        some ("pr", "cl", "cm", some (.u8 7), some (.str [65]), true) := by
  have hwf : ctxWF ctxProj := by
    simp only [ctxWF, ctxProj]
    decide
  have hnul : ∀ v ∈ ([.u8 7, .str [65]] : List Commands.Val), nulFree v := by
    intro v hv
    rcases List.mem_cons.mp hv with rfl | hv2
    · trivial
    · rcases List.mem_singleton.mp hv2 with rfl
      show ¬ 0 ∈ [65]
      decide
  obtain ⟨pid, cid, cmd, rec, hres, hunp, hp, hm, hclsfun, _, _, hra⟩ :=
    C2_roundtrip ctxProj "pr" "cl" "cm" [.u8 7, .str [65]]
      [1, 2, 3, 0, 7, 65, 0] .ACK 0 hwf hnul rfl
  have hreseval : Commands.resolveCmd ctxProj "pr" "cl" "cm" =
      .ok (1, 2, ⟨"cm", 3,
        [("x", Commands.ArgType.u8), ("s", Commands.ArgType.string)],
        Commands.ListKind.NONE, Commands.BufferKind.ACK, 0⟩) := rfl
  rw [hreseval] at hres
  injection hres with hres2
  have hcmd : cmd = ⟨"cm", 3,
      [("x", Commands.ArgType.u8), ("s", Commands.ArgType.string)],
      Commands.ListKind.NONE, Commands.BufferKind.ACK, 0⟩ := by
    have := congrArg (fun t => t.2.2) hres2
    simpa using this.symm
  subst hcmd
  have hcls : rec.cls = "cl" := hclsfun (by decide)
  have hx := hra 0 (by decide)
  have hs := hra 1 (by decide)
  refine ⟨rfl, ?_⟩
  have hx2 : Commands.assocGet rec.args "x" = some (.u8 7) := by
    simpa using hx
  have hs2 : Commands.assocGet rec.args "s" = some (.str [65]) := by
    simpa using hs
  rw [hunp]
  simp [Except.toOption, hp, hcls, hm, hx2, hs2]
